import Mathlib

set_option maxRecDepth 10000

/-!
Verification of the concurrent fix-resolution engine of the quality-hook
repository (`claude_code_fixer.py`, `auto_fix.py`).

Python strings are modelled as `List Char` (`Str`); Python `dict`-based
records are modelled as structures; machine-independent Python integers are
modelled as `Int`/`Nat`; the MD5 digest used for cluster fingerprints is
implemented bit-for-bit over `Nat` with explicit reduction modulo `2 ^ 32`.
Pure functions of the source become Lean functions; code that talks to
subprocesses (the external fixing agent, `git`) becomes a function of an
explicit environment describing the outcomes of those external calls.
-/

namespace QualityHook

/-- Python strings, modelled as lists of characters. -/
abbrev Str := List Char

/-! ## Python string primitives -/

/-- Python whitespace test (`str.strip` default set, ASCII part). -/
def pyIsSpace (c : Char) : Bool :=
  c = ' ' || c = '\t' || c = '\n' || c = '\x0d' || c = '\x0b' || c = '\x0c'

/-- Python `str.strip()`: drop leading and trailing whitespace. -/
def pyStrip (s : Str) : Str :=
  ((s.dropWhile pyIsSpace).reverse.dropWhile pyIsSpace).reverse

/-- Python `str.startswith(p)`. -/
def pyStartswith (s p : Str) : Bool := p.isPrefixOf s

/-- Python `str.endswith(p)`. -/
def pyEndswith (s p : Str) : Bool := p.isSuffixOf s

/-- Python `needle in hay` (substring containment). -/
def pyContains (hay needle : Str) : Bool :=
  (List.range (hay.length + 1)).any fun i => needle.isPrefixOf (hay.drop i)

/-- Python `str.split(c)` for a one-character separator. -/
def pySplitChar (c : Char) : Str → List Str
  | [] => [[]]
  | d :: rest =>
    if d = c then [] :: pySplitChar c rest
    else
      match pySplitChar c rest with
      | [] => [[d]]
      | s :: ss => (d :: s) :: ss

/-- Python `sep.join(parts)`. -/
def pyJoin (sep : Str) (parts : List Str) : Str := List.intercalate sep parts

/-- Python `str.replace(old, new, 1)`: replace the first occurrence only. -/
def pyReplaceFirst : Str → Str → Str → Str
  | s, [], new => new ++ s
  | [], _ :: _, _ => []
  | c :: rest, o :: os, new =>
    if (o :: os).isPrefixOf (c :: rest) then new ++ (c :: rest).drop (o :: os).length
    else c :: pyReplaceFirst rest (o :: os) new

/-- Python `list.insert(i, a)` (clamps the index like Python does). -/
def pyInsertAt (l : List α) (i : Nat) (a : α) : List α :=
  l.take i ++ a :: l.drop i

/-- Python `str.lower()` (ASCII). -/
def pyLower (s : Str) : Str := s.map Char.toLower

/-- Python `min` over a non-empty list of naturals. -/
def pyMin : List Nat → Nat
  | [] => 0
  | x :: xs => xs.foldl Nat.min x

/-- Python `max` over a non-empty list of naturals. -/
def pyMax : List Nat → Nat
  | [] => 0
  | x :: xs => xs.foldl Nat.max x

/-- Stable insertion used to model Python's stable `sorted`:
the new element goes after every element whose key is `le`-below-or-equal,
so elements with equal keys keep their original relative order. -/
def stableInsert (le : α → α → Bool) (a : α) : List α → List α
  | [] => [a]
  | b :: bs => if le b a then b :: stableInsert le a bs else a :: b :: bs

/-- Python `sorted(l, key=...)`: a stable sort, modelled as left-to-right
stable insertion. -/
def pySorted (le : α → α → Bool) (l : List α) : List α :=
  l.foldl (fun acc a => stableInsert le a acc) []

/-! ## MD5 (as used by `hashlib.md5(...).hexdigest()`)

Implemented over `Nat` with explicit reduction modulo `2 ^ 32`, on the
UTF-8/ASCII byte values of the input characters. -/

/-- Truncate to an unsigned 32-bit value. -/
def u32 (n : Nat) : Nat := n % 4294967296

/-- 32-bit left rotation. -/
def rotl32 (x n : Nat) : Nat :=
  u32 ((u32 x) * 2 ^ n) + (u32 x) / 2 ^ (32 - n) |> u32

/-- The 64 MD5 sine-derived constants. -/
def md5K : List Nat :=
  [3614090360, 3905402710, 606105819, 3250441966, 4118548399, 1200080426,
   2821735955, 4249261313, 1770035416, 2336552879, 4294925233, 2304563134,
   1804603682, 4254626195, 2792965006, 1236535329, 4129170786, 3225465664,
   643717713, 3921069994, 3593408605, 38016083, 3634488961, 3889429448,
   568446438, 3275163606, 4107603335, 1163531501, 2850285829, 4243563512,
   1735328473, 2368359562, 4294588738, 2272392833, 1839030562, 4259657740,
   2763975236, 1272893353, 4139469664, 3200236656, 681279174, 3936430074,
   3572445317, 76029189, 3654602809, 3873151461, 530742520, 3299628645,
   4096336452, 1126891415, 2878612391, 4237533241, 1700485571, 2399980690,
   4293915773, 2240044497, 1873313359, 4264355552, 2734768916, 1309151649,
   4149444226, 3174756917, 718787259, 3951481745]

/-- The 64 MD5 per-round rotation amounts. -/
def md5S : List Nat :=
  [7, 12, 17, 22, 7, 12, 17, 22, 7, 12, 17, 22, 7, 12, 17, 22,
   5, 9, 14, 20, 5, 9, 14, 20, 5, 9, 14, 20, 5, 9, 14, 20,
   4, 11, 16, 23, 4, 11, 16, 23, 4, 11, 16, 23, 4, 11, 16, 23,
   6, 10, 15, 21, 6, 10, 15, 21, 6, 10, 15, 21, 6, 10, 15, 21]

/-- MD5 padding: append `0x80`, zero-fill to 56 mod 64 bytes, then the
original bit length as a 64-bit little-endian value. -/
def md5Pad (msg : List Nat) : List Nat :=
  let len := msg.length
  let padLen := (55 + 64 - len % 64) % 64
  let bitLen := (len * 8) % 2 ^ 64
  msg ++ [128] ++ List.replicate padLen 0 ++
    (List.range 8).map (fun i => bitLen / 2 ^ (8 * i) % 256)

/-- Split a list into chunks of `n` elements (`n > 0` and `n ∣ length` on all
uses): chunk `i` is the `n` elements starting at offset `i * n`. -/
def chunks (n : Nat) (l : List α) : List (List α) :=
  (List.range ((l.length + n - 1) / n)).map fun i => (l.drop (i * n)).take n

/-- Decode 4 bytes as a little-endian 32-bit word. -/
def leWord (bytes : List Nat) : Nat :=
  (bytes.enum.map (fun p => p.2 * 2 ^ (8 * p.1))).sum

/-- One MD5 operation (step `i` of the 64 in a block). -/
def md5Step (M : List Nat) (st : Nat × Nat × Nat × Nat) (i : Nat) :
    Nat × Nat × Nat × Nat :=
  let (a, b, c, d) := st
  let (f, g) :=
    if i < 16 then ((b &&& c) ||| ((b ^^^ 4294967295) &&& d), i)
    else if i < 32 then ((d &&& b) ||| ((d ^^^ 4294967295) &&& c), (5 * i + 1) % 16)
    else if i < 48 then ((b ^^^ c) ^^^ d, (3 * i + 5) % 16)
    else (c ^^^ (b ||| (d ^^^ 4294967295)), (7 * i) % 16)
  let f' := u32 (f + a + md5K.getD i 0 + M.getD g 0)
  (d, u32 (b + rotl32 f' (md5S.getD i 0)), b, c)

/-- Process one 64-byte block. -/
def md5Block (st : Nat × Nat × Nat × Nat) (block : List Nat) :
    Nat × Nat × Nat × Nat :=
  let M := (chunks 4 block).map leWord
  let (a, b, c, d) := (List.range 64).foldl (md5Step M) st
  let (a0, b0, c0, d0) := st
  (u32 (a0 + a), u32 (b0 + b), u32 (c0 + c), u32 (d0 + d))

/-- One byte as two lowercase hex characters. -/
def byteHex (b : Nat) : Str :=
  let digit := fun n => if n < 10 then Char.ofNat (48 + n) else Char.ofNat (87 + n)
  [digit (b / 16), digit (b % 16)]

/-- A 32-bit word as 8 hex characters, little-endian byte order. -/
def wordHex (w : Nat) : Str :=
  ((List.range 4).map (fun i => byteHex (w / 2 ^ (8 * i) % 256))).flatten

/-- `hashlib.md5(s.encode()).hexdigest()` for an ASCII string. -/
def md5hexdigest (s : Str) : Str :=
  let bytes := s.map Char.toNat
  let st := (chunks 64 (md5Pad bytes)).foldl md5Block
    (1732584193, 4023233417, 2562383102, 271733878)
  let (a, b, c, d) := st
  wordHex a ++ wordHex b ++ wordHex c ++ wordHex d

/-! ## Data model (`claude_code_fixer.py`) -/

/-- One reported issue (`issue.get('rule','')`, `issue.get('message','')`,
`issue.get('line',0)`). -/
structure Issue where
  rule : Str
  message : Str
  line : Nat
deriving DecidableEq, Repr

/-- `IssueCluster` dataclass. -/
structure IssueCluster where
  issues : List Issue
  start_line : Nat
  end_line : Nat
  fingerprint : Str
deriving DecidableEq, Repr

/-- The configuration fields of `ClaudeCodeFixer.__init__` that the clustering
and dispatch paths read. -/
structure Config where
  batch_similar : Bool
  clustering_strategy : Str
  cluster_distance : Int
  max_issues_per_cluster : Int
  custom_categories : List (Str × List Str)
  predict_simple_fixes : Bool
  max_workers : Nat
  max_worktrees : Nat
  use_git_worktrees : Bool
  worktree_merge_strategy : Str
  cleanup_worktrees : Bool
deriving Repr

/-! ## Issue Clusterer -/

/-- `_get_issue_fingerprint`: the string `f"{rule}:{line}"`. -/
def get_issue_fingerprint (i : Issue) : Str :=
  i.rule ++ ':' :: Nat.toDigits 10 i.line

/-- `_get_cluster_fingerprint`: first 8 hex characters of the MD5 digest of
the `|`-joined issue fingerprints. -/
def get_cluster_fingerprint (issues : List Issue) : Str :=
  (md5hexdigest (pyJoin ['|'] (issues.map get_issue_fingerprint))).take 8

/-- `_create_cluster`. -/
def create_cluster (issues : List Issue) : IssueCluster :=
  let lines := issues.map Issue.line
  { issues := issues
    start_line := pyMin lines
    end_line := pyMax lines
    fingerprint := get_cluster_fingerprint issues }

/-- `current_cluster[-1].get('line', 0)`. -/
def lastLine (current : List Issue) : Nat :=
  match current.getLast? with
  | some i => i.line
  | none => 0

/-- Sort key of `sorted(issues, key=lambda x: x.get('line', 0))`. -/
def lineLe (a b : Issue) : Bool := a.line ≤ b.line

/-- The loop body of `_cluster_by_proximity` (shared verbatim by the
per-category loop of `_cluster_hybrid`): walk the sorted issues, extending
`current` while the next issue is within `cluster_distance` of the cluster's
last line and the cluster is below `max_issues_per_cluster`. -/
def proximity_loop (cfg : Config) :
    List Issue → List Issue → List IssueCluster → List IssueCluster
  | [], current, clusters =>
    if current ≠ [] then clusters ++ [create_cluster current] else clusters
  | issue :: rest, current, clusters =>
    if current = [] then
      proximity_loop cfg rest [issue] clusters
    else if (issue.line : Int) - (lastLine current : Int) ≤ cfg.cluster_distance ∧
        (current.length : Int) < cfg.max_issues_per_cluster then
      proximity_loop cfg rest (current ++ [issue]) clusters
    else
      proximity_loop cfg rest [issue] (clusters ++ [create_cluster current])

/-- `_cluster_by_proximity`. -/
def cluster_by_proximity (cfg : Config) (issues : List Issue) :
    List IssueCluster :=
  proximity_loop cfg (pySorted lineLe issues) [] []

/-- The keyword test `any(keyword in rule or keyword in message for ...)`. -/
def kwAny (rule message : Str) (kws : List Str) : Bool :=
  kws.any fun k => pyContains rule k || pyContains message k

/-- The custom-category scan at the top of `_get_issue_category`: first
configured category one of whose patterns occurs in the rule or message. -/
def findCustomCategory (rule message : Str) :
    List (Str × List Str) → Option Str
  | [] => none
  | (name, pats) :: rest =>
    if pats.any (fun p => pyContains rule (pyLower p) || pyContains message (pyLower p)) then
      some name
    else findCustomCategory rule message rest

/-- `_get_issue_category`. -/
def get_issue_category (cfg : Config) (issue : Issue) : Str :=
  let rule := pyLower issue.rule
  let message := pyLower issue.message
  match findCustomCategory rule message cfg.custom_categories with
  | some name => name
  | none =>
    if kwAny rule message ["import".toList, "f401".toList, "e402".toList, "isort".toList] then
      "imports".toList
    else if kwAny rule message ["type".toList, "reportargumenttype".toList,
        "reportassignmenttype".toList, "reportreturntype".toList,
        "reportmissingtypeargument".toList, "annotation".toList, "typing".toList] then
      "types".toList
    else if kwAny rule message ["f821".toList, "undefined".toList, "nameerror".toList,
        "unbound".toList] then
      "undefined".toList
    else if kwAny rule message ["f841".toList, "unused".toList,
        "assigned but never used".toList] then
      "unused".toList
    else if kwAny rule message ["d".toList, "docstring".toList, "missing docstring".toList,
        "d100".toList, "d101".toList, "d102".toList] then
      "docstrings".toList
    else if kwAny rule message ["syntax".toList, "indent".toList, "whitespace".toList,
        "format".toList, "e1".toList, "e2".toList, "e3".toList, "w".toList] then
      "formatting".toList
    else if kwAny rule message ["s".toList, "security".toList, "bandit".toList,
        "unsafe".toList] then
      "security".toList
    else if kwAny rule message ["c901".toList, "complex".toList, "cyclomatic".toList,
        "mccabe".toList] then
      "complexity".toList
    else if rule ≠ [] then
      "rule_".toList ++ [rule.headD ' ']
    else
      "other".toList

/-- Append an issue to its category bucket, preserving the insertion order of
Python's `dict` (`issue_groups[category].append(issue)`). -/
def addToGroup : List (Str × List Issue) → Str → Issue → List (Str × List Issue)
  | [], cat, issue => [(cat, [issue])]
  | (k, v) :: rest, cat, issue =>
    if k = cat then (k, v ++ [issue]) :: rest
    else (k, v) :: addToGroup rest cat issue

/-- The grouping loop shared by `_cluster_by_similarity` and
`_cluster_hybrid`. -/
def groupByCategory (cfg : Config) (issues : List Issue) :
    List (Str × List Issue) :=
  issues.foldl (fun groups issue =>
    addToGroup groups (get_issue_category cfg issue) issue) []

/-- The per-category loop of `_cluster_by_similarity`: size cap only, no
distance check. -/
def similarity_loop (cfg : Config) :
    List Issue → List Issue → List IssueCluster → List IssueCluster
  | [], current, clusters =>
    if current ≠ [] then clusters ++ [create_cluster current] else clusters
  | issue :: rest, current, clusters =>
    if current = [] then
      similarity_loop cfg rest [issue] clusters
    else if (current.length : Int) < cfg.max_issues_per_cluster then
      similarity_loop cfg rest (current ++ [issue]) clusters
    else
      similarity_loop cfg rest [issue] (clusters ++ [create_cluster current])

/-- `_cluster_by_similarity`. -/
def cluster_by_similarity (cfg : Config) (issues : List Issue) :
    List IssueCluster :=
  (groupByCategory cfg issues).foldl
    (fun clusters g => similarity_loop cfg (pySorted lineLe g.2) [] clusters) []

/-- `_cluster_hybrid`. -/
def cluster_hybrid (cfg : Config) (issues : List Issue) : List IssueCluster :=
  (groupByCategory cfg issues).foldl
    (fun clusters g => proximity_loop cfg (pySorted lineLe g.2) [] clusters) []

/-- `cluster_issues`. -/
def cluster_issues (cfg : Config) (issues : List Issue) : List IssueCluster :=
  if cfg.batch_similar = false then
    issues.map fun issue =>
      { issues := [issue]
        start_line := issue.line
        end_line := issue.line
        fingerprint := get_issue_fingerprint issue }
  else if cfg.clustering_strategy = "similarity".toList then
    cluster_by_similarity cfg issues
  else if cfg.clustering_strategy = "hybrid".toList then
    cluster_hybrid cfg issues
  else
    cluster_by_proximity cfg issues

/-! ## Clustering lemmas -/

theorem stableInsert_perm (le : α → α → Bool) (a : α) (l : List α) :
    (stableInsert le a l).Perm (a :: l) := by
  induction l with
  | nil => exact List.Perm.refl _
  | cons b bs ih =>
    simp only [stableInsert]
    split
    · exact (ih.cons b).trans (List.Perm.swap a b bs)
    · exact List.Perm.refl _

theorem pySorted_foldl_perm (le : α → α → Bool) (l acc : List α) :
    (List.foldl (fun acc a => stableInsert le a acc) acc l).Perm (acc ++ l) := by
  induction l generalizing acc with
  | nil => simp
  | cons x xs ih =>
    simp only [List.foldl_cons]
    refine (ih _).trans ?_
    exact ((stableInsert_perm le x acc).append_right xs).trans List.perm_middle.symm

theorem pySorted_perm (le : α → α → Bool) (l : List α) :
    (pySorted le l).Perm l := by
  simpa using pySorted_foldl_perm le l []

/-- The propositional ordering that `pySorted lineLe` establishes. -/
def lineLeP (a b : Issue) : Prop := a.line ≤ b.line

theorem stableInsert_pairwise {a : Issue} {l : List Issue}
    (h : l.Pairwise lineLeP) : (stableInsert lineLe a l).Pairwise lineLeP := by
  induction l with
  | nil => simp [stableInsert, List.pairwise_cons]
  | cons b bs ih =>
    rcases List.pairwise_cons.mp h with ⟨hb, hbs⟩
    simp only [stableInsert]
    split
    · rename_i hle
      refine List.pairwise_cons.mpr ⟨?_, ih hbs⟩
      intro x hx
      rcases List.mem_cons.mp ((stableInsert_perm lineLe a bs).mem_iff.mp hx) with
        h2 | h2
      · subst h2
        simpa [lineLe, lineLeP] using hle
      · exact hb x h2
    · rename_i hle
      have hab : a.line ≤ b.line := by
        simp only [lineLe, decide_eq_true_eq] at hle; omega
      refine List.pairwise_cons.mpr ⟨?_, h⟩
      intro x hx
      rcases List.mem_cons.mp hx with h2 | h2
      · subst h2; exact hab
      · exact le_trans hab (hb x h2)

theorem pySorted_foldl_pairwise (l : List Issue) :
    ∀ acc : List Issue, acc.Pairwise lineLeP →
    (List.foldl (fun acc a => stableInsert lineLe a acc) acc l).Pairwise lineLeP := by
  induction l with
  | nil => intro acc h; exact h
  | cons x xs ih =>
    intro acc h
    exact ih _ (stableInsert_pairwise h)

theorem pySorted_pairwise (l : List Issue) :
    (pySorted lineLe l).Pairwise lineLeP :=
  pySorted_foldl_pairwise l [] (List.Pairwise.nil)

@[simp] theorem create_cluster_issues (issues : List Issue) :
    (create_cluster issues).issues = issues := rfl

theorem proximity_loop_flatMap (cfg : Config) :
    ∀ (rest current : List Issue) (clusters : List IssueCluster),
    (proximity_loop cfg rest current clusters).flatMap IssueCluster.issues =
      clusters.flatMap IssueCluster.issues ++ current ++ rest := by
  intro rest
  induction rest with
  | nil =>
    intro current clusters
    simp only [proximity_loop]
    split
    · simp
    · rename_i h
      simp only [ne_eq, not_not] at h
      simp [h]
  | cons issue rest ih =>
    intro current clusters
    simp only [proximity_loop]
    split
    · rename_i h
      subst h
      simp [ih]
    · split
      · rw [ih]
        simp
      · rw [ih]
        simp

theorem similarity_loop_flatMap (cfg : Config) :
    ∀ (rest current : List Issue) (clusters : List IssueCluster),
    (similarity_loop cfg rest current clusters).flatMap IssueCluster.issues =
      clusters.flatMap IssueCluster.issues ++ current ++ rest := by
  intro rest
  induction rest with
  | nil =>
    intro current clusters
    simp only [similarity_loop]
    split
    · simp
    · rename_i h
      simp only [ne_eq, not_not] at h
      simp [h]
  | cons issue rest ih =>
    intro current clusters
    simp only [similarity_loop]
    split
    · rename_i h
      subst h
      simp [ih]
    · split
      · rw [ih]
        simp
      · rw [ih]
        simp

theorem addToGroup_flatMap_perm (groups : List (Str × List Issue)) (cat : Str)
    (i : Issue) :
    ((addToGroup groups cat i).flatMap Prod.snd).Perm
      (groups.flatMap Prod.snd ++ [i]) := by
  induction groups with
  | nil => simp [addToGroup]
  | cons g rest ih =>
    obtain ⟨k, v⟩ := g
    simp only [addToGroup]
    split
    · simp only [List.flatMap_cons, List.append_assoc]
      exact List.Perm.append_left v (@List.perm_append_comm _ [i] _)
    · simp only [List.flatMap_cons, List.append_assoc]
      exact ih.append_left v

theorem groupBy_foldl_perm (cat : Issue → Str) (issues : List Issue) :
    ∀ groups : List (Str × List Issue),
    ((issues.foldl (fun g issue => addToGroup g (cat issue) issue) groups).flatMap
        Prod.snd).Perm (groups.flatMap Prod.snd ++ issues) := by
  induction issues with
  | nil => intro groups; simp
  | cons x xs ih =>
    intro groups
    simp only [List.foldl_cons]
    refine (ih _).trans ?_
    have h1 := (addToGroup_flatMap_perm groups (cat x) x).append_right xs
    have h2 : (groups.flatMap Prod.snd ++ [x]) ++ xs =
        groups.flatMap Prod.snd ++ (x :: xs) := by simp
    exact h2 ▸ h1

theorem groupByCategory_flatMap_perm (cfg : Config) (issues : List Issue) :
    ((groupByCategory cfg issues).flatMap Prod.snd).Perm issues := by
  simpa using groupBy_foldl_perm (get_issue_category cfg) issues []

theorem foldl_loop_flatMap (cfg : Config)
    (loop : List Issue → List Issue → List IssueCluster → List IssueCluster)
    (hloop : ∀ rest current clusters,
      (loop rest current clusters).flatMap IssueCluster.issues =
        clusters.flatMap IssueCluster.issues ++ current ++ rest) :
    ∀ (groups : List (Str × List Issue)) (clusters : List IssueCluster),
    ((groups.foldl (fun cl g => loop (pySorted lineLe g.2) [] cl)
        clusters).flatMap IssueCluster.issues) =
      clusters.flatMap IssueCluster.issues ++
        groups.flatMap (fun g => pySorted lineLe g.2) := by
  intro groups
  induction groups with
  | nil => intro clusters; simp
  | cons g rest ih =>
    intro clusters
    simp only [List.foldl_cons, List.flatMap_cons]
    rw [ih, hloop]
    simp

theorem flatMap_pySorted_perm (groups : List (Str × List Issue)) :
    (groups.flatMap (fun g => pySorted lineLe g.2)).Perm
      (groups.flatMap Prod.snd) := by
  induction groups with
  | nil => exact List.Perm.refl _
  | cons g rest ih =>
    simp only [List.flatMap_cons]
    exact (pySorted_perm lineLe g.2).append ih

theorem cluster_by_proximity_perm (cfg : Config) (issues : List Issue) :
    ((cluster_by_proximity cfg issues).flatMap IssueCluster.issues).Perm issues := by
  unfold cluster_by_proximity
  rw [proximity_loop_flatMap]
  simpa using pySorted_perm lineLe issues

theorem cluster_by_similarity_perm (cfg : Config) (issues : List Issue) :
    ((cluster_by_similarity cfg issues).flatMap IssueCluster.issues).Perm issues := by
  unfold cluster_by_similarity
  rw [foldl_loop_flatMap cfg _ (similarity_loop_flatMap cfg)]
  simp only [List.flatMap_nil, List.nil_append]
  exact (flatMap_pySorted_perm _).trans (groupByCategory_flatMap_perm cfg issues)

theorem cluster_hybrid_perm (cfg : Config) (issues : List Issue) :
    ((cluster_hybrid cfg issues).flatMap IssueCluster.issues).Perm issues := by
  unfold cluster_hybrid
  rw [foldl_loop_flatMap cfg _ (proximity_loop_flatMap cfg)]
  simp only [List.flatMap_nil, List.nil_append]
  exact (flatMap_pySorted_perm _).trans (groupByCategory_flatMap_perm cfg issues)

theorem proximity_loop_nonempty (cfg : Config) :
    ∀ (rest current : List Issue) (clusters : List IssueCluster),
    (∀ c ∈ clusters, c.issues ≠ []) →
    (∀ c ∈ proximity_loop cfg rest current clusters, c.issues ≠ []) := by
  intro rest
  induction rest with
  | nil =>
    intro current clusters h
    simp only [proximity_loop]
    split
    · rename_i hcur
      intro c hc
      rcases List.mem_append.mp hc with h2 | h2
      · exact h c h2
      · simp only [List.mem_singleton] at h2
        subst h2
        simpa using hcur
    · exact h
  | cons issue rest ih =>
    intro current clusters h
    simp only [proximity_loop]
    split
    · exact ih _ _ h
    · split
      · exact ih _ _ h
      · rename_i hcur _
        refine ih _ _ ?_
        intro c hc
        rcases List.mem_append.mp hc with h2 | h2
        · exact h c h2
        · simp only [List.mem_singleton] at h2
          subst h2
          simpa using hcur

theorem similarity_loop_nonempty (cfg : Config) :
    ∀ (rest current : List Issue) (clusters : List IssueCluster),
    (∀ c ∈ clusters, c.issues ≠ []) →
    (∀ c ∈ similarity_loop cfg rest current clusters, c.issues ≠ []) := by
  intro rest
  induction rest with
  | nil =>
    intro current clusters h
    simp only [similarity_loop]
    split
    · rename_i hcur
      intro c hc
      rcases List.mem_append.mp hc with h2 | h2
      · exact h c h2
      · simp only [List.mem_singleton] at h2
        subst h2
        simpa using hcur
    · exact h
  | cons issue rest ih =>
    intro current clusters h
    simp only [similarity_loop]
    split
    · exact ih _ _ h
    · split
      · exact ih _ _ h
      · rename_i hcur _
        refine ih _ _ ?_
        intro c hc
        rcases List.mem_append.mp hc with h2 | h2
        · exact h c h2
        · simp only [List.mem_singleton] at h2
          subst h2
          simpa using hcur

theorem foldl_loop_nonempty (cfg : Config)
    (loop : List Issue → List Issue → List IssueCluster → List IssueCluster)
    (hloop : ∀ rest current clusters,
      (∀ c ∈ clusters, c.issues ≠ []) →
      (∀ c ∈ loop rest current clusters, c.issues ≠ [])) :
    ∀ (groups : List (Str × List Issue)) (clusters : List IssueCluster),
    (∀ c ∈ clusters, c.issues ≠ []) →
    (∀ c ∈ groups.foldl (fun cl g => loop (pySorted lineLe g.2) [] cl) clusters,
      c.issues ≠ []) := by
  intro groups
  induction groups with
  | nil => intro clusters h; exact h
  | cons g rest ih =>
    intro clusters h
    exact ih _ (hloop _ _ _ h)

/-- C3 (claim): `cluster_issues` partitions its input — the clusters' issue
lists together are a permutation of the input issue list (so clusters are
pairwise disjoint as a multiset partition and no input issue is lost or
duplicated), and no cluster is empty, for every configuration (batching
disabled, proximity, similarity, and hybrid). -/
theorem cluster_issues_partition (cfg : Config) (issues : List Issue) :
    ((cluster_issues cfg issues).flatMap IssueCluster.issues).Perm issues ∧
    (∀ c ∈ cluster_issues cfg issues, c.issues ≠ []) := by
  unfold cluster_issues
  split
  · constructor
    · induction issues with
      | nil => simp
      | cons x xs ih => simpa using ih.cons x
    · intro c hc
      simp only [List.mem_map] at hc
      obtain ⟨i, _, hi⟩ := hc
      subst hi
      simp
  · split
    · exact ⟨cluster_by_similarity_perm cfg issues,
        foldl_loop_nonempty cfg _ (similarity_loop_nonempty cfg) _ _ (by simp)⟩
    · split
      · exact ⟨cluster_hybrid_perm cfg issues,
          foldl_loop_nonempty cfg _ (proximity_loop_nonempty cfg) _ _ (by simp)⟩
      · exact ⟨cluster_by_proximity_perm cfg issues,
          proximity_loop_nonempty cfg _ _ _ (by simp)⟩

theorem proximity_loop_size (cfg : Config)
    (hmax : 1 ≤ cfg.max_issues_per_cluster) :
    ∀ (rest current : List Issue) (clusters : List IssueCluster),
    (current.length : Int) ≤ cfg.max_issues_per_cluster →
    (∀ c ∈ clusters, (c.issues.length : Int) ≤ cfg.max_issues_per_cluster) →
    (∀ c ∈ proximity_loop cfg rest current clusters,
      (c.issues.length : Int) ≤ cfg.max_issues_per_cluster) := by
  intro rest
  induction rest with
  | nil =>
    intro current clusters hcur h
    simp only [proximity_loop]
    split
    · intro c hc
      rcases List.mem_append.mp hc with h2 | h2
      · exact h c h2
      · simp only [List.mem_singleton] at h2
        subst h2
        simpa using hcur
    · exact h
  | cons issue rest ih =>
    intro current clusters hcur h
    simp only [proximity_loop]
    split
    · refine ih _ _ ?_ h
      simpa using hmax
    · split
      · rename_i hcond
        refine ih _ _ ?_ h
        simp only [List.length_append, List.length_singleton]
        push_cast
        omega
      · rename_i hcur0 _
        refine ih _ _ (by simpa using hmax) ?_
        intro c hc
        rcases List.mem_append.mp hc with h2 | h2
        · exact h c h2
        · simp only [List.mem_singleton] at h2
          subst h2
          simpa using hcur

theorem similarity_loop_size (cfg : Config)
    (hmax : 1 ≤ cfg.max_issues_per_cluster) :
    ∀ (rest current : List Issue) (clusters : List IssueCluster),
    (current.length : Int) ≤ cfg.max_issues_per_cluster →
    (∀ c ∈ clusters, (c.issues.length : Int) ≤ cfg.max_issues_per_cluster) →
    (∀ c ∈ similarity_loop cfg rest current clusters,
      (c.issues.length : Int) ≤ cfg.max_issues_per_cluster) := by
  intro rest
  induction rest with
  | nil =>
    intro current clusters hcur h
    simp only [similarity_loop]
    split
    · intro c hc
      rcases List.mem_append.mp hc with h2 | h2
      · exact h c h2
      · simp only [List.mem_singleton] at h2
        subst h2
        simpa using hcur
    · exact h
  | cons issue rest ih =>
    intro current clusters hcur h
    simp only [similarity_loop]
    split
    · refine ih _ _ ?_ h
      simpa using hmax
    · split
      · rename_i hcond
        refine ih _ _ ?_ h
        simp only [List.length_append, List.length_singleton]
        push_cast
        omega
      · rename_i hcur0 _
        refine ih _ _ (by simpa using hmax) ?_
        intro c hc
        rcases List.mem_append.mp hc with h2 | h2
        · exact h c h2
        · simp only [List.mem_singleton] at h2
          subst h2
          simpa using hcur

theorem foldl_loop_size (cfg : Config)
    (hmax : 1 ≤ cfg.max_issues_per_cluster)
    (loop : List Issue → List Issue → List IssueCluster → List IssueCluster)
    (hloop : ∀ rest current clusters,
      (current.length : Int) ≤ cfg.max_issues_per_cluster →
      (∀ c ∈ clusters, (c.issues.length : Int) ≤ cfg.max_issues_per_cluster) →
      (∀ c ∈ loop rest current clusters,
        (c.issues.length : Int) ≤ cfg.max_issues_per_cluster)) :
    ∀ (groups : List (Str × List Issue)) (clusters : List IssueCluster),
    (∀ c ∈ clusters, (c.issues.length : Int) ≤ cfg.max_issues_per_cluster) →
    (∀ c ∈ groups.foldl (fun cl g => loop (pySorted lineLe g.2) [] cl) clusters,
      (c.issues.length : Int) ≤ cfg.max_issues_per_cluster) := by
  intro groups
  induction groups with
  | nil => intro clusters h; exact h
  | cons g rest ih =>
    intro clusters h
    exact ih _ (hloop _ _ _ (by simp; omega) h)

/-- Relation holding between consecutive issues of one proximity/hybrid
cluster: the later issue is on a line no earlier, and at most
`cluster_distance` lines further down. -/
def gapOK (cfg : Config) (a b : Issue) : Prop :=
  a.line ≤ b.line ∧ (b.line : Int) - (a.line : Int) ≤ cfg.cluster_distance

theorem lastLine_eq {current : List Issue} (h : current ≠ []) :
    lastLine current = (current.getLast h).line := by
  simp [lastLine, List.getLast?_eq_getLast current h]

theorem proximity_loop_chain (cfg : Config) :
    ∀ (rest current : List Issue) (clusters : List IssueCluster),
    (current ++ rest).Pairwise lineLeP →
    current.Chain' (gapOK cfg) →
    (∀ c ∈ clusters, c.issues.Chain' (gapOK cfg)) →
    (∀ c ∈ proximity_loop cfg rest current clusters,
      c.issues.Chain' (gapOK cfg)) := by
  intro rest
  induction rest with
  | nil =>
    intro current clusters _ hcur h
    simp only [proximity_loop]
    split
    · intro c hc
      rcases List.mem_append.mp hc with h2 | h2
      · exact h c h2
      · simp only [List.mem_singleton] at h2
        subst h2
        simpa using hcur
    · exact h
  | cons issue rest ih =>
    intro current clusters hsorted hcur h
    simp only [proximity_loop]
    split
    · rename_i hcur0
      subst hcur0
      exact ih [issue] clusters (by simpa using hsorted) (List.chain'_singleton _) h
    · split
      · rename_i hcur0 hcond
        refine ih (current ++ [issue]) clusters ?_ ?_ h
        · simpa using hsorted
        · rw [List.chain'_append]
          refine ⟨hcur, List.chain'_singleton _, ?_⟩
          intro x hx y hy
          rw [List.getLast?_eq_getLast current hcur0, Option.mem_some_iff] at hx
          simp only [List.head?_cons, Option.mem_some_iff] at hy
          subst hx; subst hy
          have hmem : current.getLast hcur0 ∈ current := List.getLast_mem hcur0
          have hle : (current.getLast hcur0).line ≤ issue.line := by
            rcases List.pairwise_append.mp hsorted with ⟨_, _, hrel⟩
            exact hrel _ hmem issue (by simp)
          refine ⟨hle, ?_⟩
          have := hcond.1
          rwa [lastLine_eq hcur0] at this
      · rename_i hcur0 _
        refine ih [issue] (clusters ++ [create_cluster current]) ?_
          (List.chain'_singleton _) ?_
        · exact (List.pairwise_append.mp hsorted).2.1
        · intro c hc
          rcases List.mem_append.mp hc with h2 | h2
          · exact h c h2
          · simp only [List.mem_singleton] at h2
            subst h2
            simpa using hcur

theorem foldl_loop_chain (cfg : Config) :
    ∀ (groups : List (Str × List Issue)) (clusters : List IssueCluster),
    (∀ c ∈ clusters, c.issues.Chain' (gapOK cfg)) →
    (∀ c ∈ groups.foldl
        (fun cl g => proximity_loop cfg (pySorted lineLe g.2) [] cl) clusters,
      c.issues.Chain' (gapOK cfg)) := by
  intro groups
  induction groups with
  | nil => intro clusters h; exact h
  | cons g rest ih =>
    intro clusters h
    refine ih _ (proximity_loop_chain cfg _ _ _ ?_ List.chain'_nil h)
    simpa using pySorted_pairwise g.2

/-- C8 (amended): with `max_issues_per_cluster ≥ 1`, no output cluster of any
strategy holds more than `max_issues_per_cluster` issues; and whenever the
similarity strategy is not selected (proximity, hybrid, unknown strategy
names, or batching disabled), any two *consecutive* issues of a cluster are
at most `cluster_distance` lines apart.  (The claim's stronger reading — that
no two issues of a cluster are ever more than `cluster_distance` apart — is
false: consecutive gaps of at most `cluster_distance` can chain, see the
counterexample.) -/
theorem cluster_issues_size_chain (cfg : Config) (issues : List Issue)
    (hmax : 1 ≤ cfg.max_issues_per_cluster) :
    (∀ c ∈ cluster_issues cfg issues,
      (c.issues.length : Int) ≤ cfg.max_issues_per_cluster) ∧
    (cfg.clustering_strategy ≠ "similarity".toList →
      ∀ c ∈ cluster_issues cfg issues, c.issues.Chain' (gapOK cfg)) := by
  unfold cluster_issues
  split
  · constructor
    · intro c hc
      simp only [List.mem_map] at hc
      obtain ⟨i, _, hi⟩ := hc
      subst hi
      simpa using hmax
    · intro _ c hc
      simp only [List.mem_map] at hc
      obtain ⟨i, _, hi⟩ := hc
      subst hi
      simp [List.chain'_singleton]
  · split
    · rename_i hstrat
      refine ⟨foldl_loop_size cfg hmax _ (similarity_loop_size cfg hmax) _ _ (by simp), ?_⟩
      intro hne
      exact absurd hstrat hne
    · split
      · exact ⟨foldl_loop_size cfg hmax _ (proximity_loop_size cfg hmax) _ _ (by simp),
          fun _ => foldl_loop_chain cfg _ _ (by simp)⟩
      · refine ⟨proximity_loop_size cfg hmax _ _ _ (by simp; omega) (by simp), ?_⟩
        intro _
        refine proximity_loop_chain cfg _ _ _ ?_ List.chain'_nil (by simp)
        simpa using pySorted_pairwise issues

/-- The configuration `ClaudeCodeFixer.__init__` builds from an empty
`claude_code` config section: all source defaults. -/
def cfgDefault : Config where
  batch_similar := true
  clustering_strategy := "proximity".toList
  cluster_distance := 5
  max_issues_per_cluster := 5
  custom_categories := []
  predict_simple_fixes := true
  max_workers := 10
  max_worktrees := 10
  use_git_worktrees := false
  worktree_merge_strategy := "claude".toList
  cleanup_worktrees := true

/-- Witness for `cluster_issues_size_chain` at the default configuration. -/
theorem cluster_issues_size_chain_witness :
    (1 : Int) ≤ cfgDefault.max_issues_per_cluster ∧
    ∀ c ∈ cluster_issues cfgDefault
        [⟨"F401".toList, [], 3⟩, ⟨"F401".toList, [], 30⟩],
      (c.issues.length : Int) ≤ cfgDefault.max_issues_per_cluster :=
  ⟨by decide, (cluster_issues_size_chain cfgDefault _ (by decide)).1⟩

/-- C8 (counterexample): with the default configuration
(`cluster_distance = 5`, `max_issues_per_cluster = 5`, proximity strategy),
issues on lines 0, 5 and 10 land in a single cluster that was never
size-capped, yet contains two issues 10 > 5 lines apart: consecutive gaps of
at most `cluster_distance` chain, so a cluster may span more than
`cluster_distance` without being size-capped. -/
theorem cluster_span_counterexample :
    ∃ c ∈ cluster_issues cfgDefault
      [⟨"E501".toList, [], 0⟩, ⟨"E501".toList, [], 5⟩, ⟨"E501".toList, [], 10⟩],
      ∃ a ∈ c.issues, ∃ b ∈ c.issues,
        cfgDefault.cluster_distance < (b.line : Int) - (a.line : Int) ∧
        (c.issues.length : Int) < cfgDefault.max_issues_per_cluster := by
  decide

/-- C4 (counterexample): two runs of `cluster_issues` on the same issues in a
different order produce clusters with identical issue *sets* (the same two
issues, lines equal, tied) but different fingerprints — the fingerprint hashes
the *ordered* `rule:line` pairs, and Python's stable sort preserves the tie
order of the input. -/
theorem cluster_fingerprint_counterexample :
    ∃ c1 ∈ cluster_issues cfgDefault
      [⟨"F821".toList, [], 5⟩, ⟨"F841".toList, [], 5⟩],
    ∃ c2 ∈ cluster_issues cfgDefault
      [⟨"F841".toList, [], 5⟩, ⟨"F821".toList, [], 5⟩],
      c1.issues.Perm c2.issues ∧ c1.fingerprint ≠ c2.fingerprint := by
  decide

/-- C4 (amended): clustering is deterministic — it is a pure function of the
configuration and issue list (two runs on the same inputs are equal) — and
the cluster fingerprint is determined by the *ordered sequence* of
`(rule, line)` pairs of the cluster's issues: two clusters whose issue
sequences agree on rules and lines (messages may differ) have identical
fingerprints.  Identical issue *sets* in a different member order do not
(see the counterexample). -/
theorem cluster_fingerprint_deterministic (cfg : Config) (issues : List Issue)
    (is1 is2 : List Issue)
    (h : is1.map (fun i => (i.rule, i.line)) = is2.map (fun i => (i.rule, i.line))) :
    cluster_issues cfg issues = cluster_issues cfg issues ∧
    get_cluster_fingerprint is1 = get_cluster_fingerprint is2 := by
  refine ⟨rfl, ?_⟩
  have hmap : ∀ l : List Issue, l.map get_issue_fingerprint =
      (l.map (fun i => (i.rule, i.line))).map
        (fun p => p.1 ++ ':' :: Nat.toDigits 10 p.2) := by
    intro l
    rw [List.map_map]
    rfl
  unfold get_cluster_fingerprint
  rw [hmap, hmap, h]

/-- Witness for `cluster_fingerprint_deterministic`: two singleton clusters
whose issues differ only in message hash to the same fingerprint. -/
theorem cluster_fingerprint_deterministic_witness :
    get_cluster_fingerprint [⟨"F821".toList, "message one".toList, 7⟩] =
      get_cluster_fingerprint [⟨"F821".toList, "message two".toList, 7⟩] :=
  (cluster_fingerprint_deterministic cfgDefault []
    [⟨"F821".toList, "message one".toList, 7⟩]
    [⟨"F821".toList, "message two".toList, 7⟩] (by decide)).2


/-! ## Simple-Fix Predictor (`predict_simple_fix`, `_apply_import_fix`) -/

/-- The `'F821'` table of `simple_fix_patterns`: undefined name → import
statement. -/
def simple_fix_F821 (name : Str) : Option Str :=
  if name = "json".toList then some "import json".toList
  else if name = "datetime".toList then some "from datetime import datetime".toList
  else if name = "logging".toList then some "import logging".toList
  else if name = "os".toList then some "import os".toList
  else if name = "sys".toList then some "import sys".toList
  else if name = "Path".toList then some "from pathlib import Path".toList
  else if name = "List".toList then some "from typing import List".toList
  else if name = "Dict".toList then some "from typing import Dict".toList
  else if name = "Optional".toList then some "from typing import Optional".toList
  else none

/-- A single-quote character (`chr 39`). -/
def squote : Char := Char.ofNat 39

/-- The three-double-quote docstring delimiter. -/
def dq3 : Str := "\"\"\"".toList

/-- The three-single-quote docstring delimiter. -/
def sq3 : Str := [squote, squote, squote]

/-- The `while` loop inside `_apply_import_fix` that advances `insert_pos`
past the existing leading import block: the number of consecutive lines from
the current position that are `import `/`from ` lines or blank.  The Python
loop `while insert_pos < len(lines) and (...): insert_pos += 1` starting at
position `p` ends at `p + import_skip (lines.drop p)`. -/
def import_skip : List Str → Nat
  | [] => 0
  | l :: rest =>
    if pyStartswith (pyStrip l) "import ".toList ||
        pyStartswith (pyStrip l) "from ".toList ||
        (pyStrip l).isEmpty then
      1 + import_skip rest
    else 0

/-- The insert-position scan of `_apply_import_fix`: walk the lines with the
`(insert_pos, in_docstring, docstring_char)` state, `break`ing at the first
code line.  `lines` is the full line list (needed by the inner `while`),
the second argument the remaining lines, `i` the current index. -/
def insert_pos_go (lines : List Str) :
    List Str → Nat → Nat → Bool → Option Str → Nat
  | [], _, pos, _, _ => pos
  | line :: rest, i, pos, in_doc, doc_char =>
    let stripped := pyStrip line
    if !in_doc && (pyStartswith stripped dq3 || pyStartswith stripped sq3) then
      let dc := if pyStartswith stripped dq3 then dq3 else sq3
      let in_doc2 := !(pyEndswith stripped dc && decide (3 < stripped.length))
      insert_pos_go lines rest (i + 1) pos in_doc2 (some dc)
    else if in_doc &&
        (match doc_char with
         | some dc => !dc.isEmpty && pyEndswith stripped dc
         | none => false) then
      insert_pos_go lines rest (i + 1) (i + 1) false doc_char
    else if !in_doc && !stripped.isEmpty && !pyStartswith stripped "#".toList then
      if pyStartswith stripped "import ".toList ||
          pyStartswith stripped "from ".toList then
        (i + 1) + import_skip (lines.drop (i + 1))
      else i
    else
      insert_pos_go lines rest (i + 1) pos in_doc doc_char

/-- `_apply_import_fix`: insert the import statement at the computed
position and re-join the lines. -/
def apply_import_fix (content import_stmt : Str) : Str :=
  let lines := pySplitChar '\n' content
  let insert_pos := insert_pos_go lines lines 0 0 false none
  pyJoin ['\n'] (pyInsertAt lines insert_pos import_stmt)

/-- `predict_simple_fix`.  (`rule in self.simple_fix_patterns` is always true
when `rule == 'F821'`; `message.split('\x60')[1]` is modelled with a default
that is unreachable because the split has at least two parts whenever the
message contains the backquote of `"Undefined name \x60"`.) -/
def predict_simple_fix (cfg : Config) (issue : Issue) (file_content : Str) :
    Option Str :=
  if cfg.predict_simple_fixes = false then none
  else if issue.rule = "F821".toList then
    if pyContains issue.message "Undefined name `".toList then
      match simple_fix_F821 ((pySplitChar '`' issue.message).getD 1 []) with
      | some import_stmt =>
        if pyContains file_content import_stmt = false then
          some (apply_import_fix file_content import_stmt)
        else none
      | none => none
    else none
  else if issue.rule = "F841".toList then
    let line_num : Int := (issue.line : Int) - 1
    let lines := pySplitChar '\n' file_content
    if 0 ≤ line_num ∧ line_num < (lines.length : Int) then
      let line := lines.getD line_num.toNat []
      if pyContains line " = ".toList then
        let var_name := pyStrip ((pySplitChar '=' line).getD 0 [])
        if pyStartswith var_name "_".toList = false then
          some (pyJoin ['\n'] (lines.set line_num.toNat
            (pyReplaceFirst line var_name ('_' :: var_name))))
        else none
      else none
    else none
  else none

/-! ## String lemmas for the predictor -/

theorem pyContains_of_infix {hay needle : Str} (h : needle <:+: hay) :
    pyContains hay needle = true := by
  obtain ⟨s, t, hst⟩ := h
  apply List.any_eq_true.mpr
  refine ⟨s.length, ?_, ?_⟩
  · apply List.mem_range.mpr
    have : hay.length = s.length + needle.length + t.length := by
      rw [← hst]; simp; omega
    omega
  · have : hay.drop s.length = needle ++ t := by
      rw [← hst, List.append_assoc, List.drop_left]
    rw [this]
    exact List.isPrefixOf_iff_prefix.mpr (List.prefix_append needle t)

theorem infix_of_pyContains {hay needle : Str} (h : pyContains hay needle = true) :
    needle <:+: hay := by
  obtain ⟨i, _, hpre⟩ := List.any_eq_true.mp h
  have hp := List.isPrefixOf_iff_prefix.mp hpre
  obtain ⟨t, ht⟩ := hp
  exact ⟨hay.take i, t, by rw [List.append_assoc, ht, List.take_append_drop]⟩

theorem intercalate_cons_cons (sep x y : Str) (L : List Str) :
    List.intercalate sep (x :: y :: L) = x ++ sep ++ List.intercalate sep (y :: L) := by
  simp [List.intercalate, List.intersperse]

theorem infix_intercalate_of_mem (sep : Str) :
    ∀ {L : List Str} {x : Str}, x ∈ L → x <:+: List.intercalate sep L := by
  intro L
  induction L with
  | nil => intro x hx; cases hx
  | cons y rest ih =>
    intro x hx
    cases rest with
    | nil =>
      simp only [List.mem_singleton] at hx
      subst hx
      simp [List.intercalate]
    | cons z rest2 =>
      rw [intercalate_cons_cons]
      rcases List.mem_cons.mp hx with h2 | h2
      · subst h2
        exact ⟨[], sep ++ List.intercalate sep (z :: rest2), by simp⟩
      · obtain ⟨s, t, hst⟩ := ih h2
        exact ⟨y ++ sep ++ s, t, by rw [← hst]; simp⟩

theorem contains_apply_import_fix (c stmt : Str) :
    pyContains (apply_import_fix c stmt) stmt = true := by
  apply pyContains_of_infix
  apply infix_intercalate_of_mem
  simp [pyInsertAt]

theorem pySplitChar_ne_nil (c : Char) (s : Str) : pySplitChar c s ≠ [] := by
  cases s with
  | nil => simp [pySplitChar]
  | cons d rest =>
    simp only [pySplitChar]
    split
    · simp
    · split
      · simp
      · simp

theorem not_mem_of_mem_pySplitChar {c : Char} :
    ∀ {s : Str}, ∀ l ∈ pySplitChar c s, c ∉ l := by
  intro s
  induction s with
  | nil =>
    intro l hl
    simp only [pySplitChar, List.mem_singleton] at hl
    subst hl
    simp
  | cons d rest ih =>
    intro l hl
    simp only [pySplitChar] at hl
    split at hl
    · rcases List.mem_cons.mp hl with h2 | h2
      · subst h2; simp
      · exact ih l h2
    · rename_i hd
      split at hl
      · rename_i heq
        exact absurd heq (pySplitChar_ne_nil c rest)
      · rename_i s0 ss heq
        rcases List.mem_cons.mp hl with h2 | h2
        · subst h2
          intro hmem
          rcases List.mem_cons.mp hmem with h3 | h3
          · exact hd h3.symm
          · exact ih s0 (by rw [heq]; exact List.mem_cons_self s0 ss) h3
        · exact ih l (by rw [heq]; exact List.mem_cons_of_mem s0 h2)

theorem mem_of_mem_pySplitChar {c x : Char} :
    ∀ {s : Str}, ∀ l ∈ pySplitChar c s, x ∈ l → x ∈ s := by
  intro s
  induction s with
  | nil =>
    intro l hl hx
    simp only [pySplitChar, List.mem_singleton] at hl
    subst hl
    cases hx
  | cons d rest ih =>
    intro l hl hx
    simp only [pySplitChar] at hl
    split at hl
    · rcases List.mem_cons.mp hl with h2 | h2
      · subst h2; cases hx
      · exact List.mem_cons_of_mem d (ih l h2 hx)
    · split at hl
      · rename_i heq
        exact absurd heq (pySplitChar_ne_nil c rest)
      · rename_i s0 ss heq
        rcases List.mem_cons.mp hl with h2 | h2
        · subst h2
          rcases List.mem_cons.mp hx with h3 | h3
          · subst h3; exact List.mem_cons_self x _
          · exact List.mem_cons_of_mem d
              (ih s0 (by rw [heq]; exact List.mem_cons_self s0 ss) h3)
        · exact List.mem_cons_of_mem d
            (ih l (by rw [heq]; exact List.mem_cons_of_mem s0 h2) hx)

theorem pySplitChar_of_not_mem {c : Char} :
    ∀ {s : Str}, c ∉ s → pySplitChar c s = [s] := by
  intro s
  induction s with
  | nil => intro _; rfl
  | cons d rest ih =>
    intro h
    have hd : ¬ d = c := fun hdc => h (hdc ▸ List.mem_cons_self d rest)
    have hrest : c ∉ rest := fun hm => h (List.mem_cons_of_mem d hm)
    simp only [pySplitChar, if_neg hd, ih hrest]

theorem pySplitChar_append_cons {c : Char} :
    ∀ {x : Str}, c ∉ x → ∀ t : Str,
      pySplitChar c (x ++ c :: t) = x :: pySplitChar c t := by
  intro x
  induction x with
  | nil =>
    intro _ t
    simp [pySplitChar]
  | cons d rest ih =>
    intro h t
    have hd : ¬ d = c := fun hdc => h (hdc ▸ List.mem_cons_self d rest)
    have hrest : c ∉ rest := fun hm => h (List.mem_cons_of_mem d hm)
    simp only [List.cons_append, pySplitChar, if_neg hd, List.append_eq]
    rw [ih hrest t]

theorem pySplitChar_pyJoin {c : Char} :
    ∀ {L : List Str}, L ≠ [] → (∀ l ∈ L, c ∉ l) →
      pySplitChar c (pyJoin [c] L) = L := by
  intro L
  induction L with
  | nil => intro h; exact absurd rfl h
  | cons x rest ih =>
    intro _ hmem
    cases rest with
    | nil =>
      simp only [pyJoin, List.intercalate]
      simp only [List.intersperse_single, List.flatten, List.append_nil]
      exact pySplitChar_of_not_mem (hmem x (List.mem_cons_self x []))
    | cons y rest2 =>
      have hx : c ∉ x := hmem x (List.mem_cons_self x _)
      have hjoin : pyJoin [c] (x :: y :: rest2) =
          x ++ c :: pyJoin [c] (y :: rest2) := by
        simp only [pyJoin, intercalate_cons_cons]
        simp
      rw [hjoin, pySplitChar_append_cons hx]
      rw [ih (by simp) (fun l hl => hmem l (List.mem_cons_of_mem x hl))]

theorem exists_first_sep {c : Char} :
    ∀ {s : Str}, c ∈ s → ∃ A B : Str, s = A ++ c :: B ∧ c ∉ A := by
  intro s
  induction s with
  | nil => intro h; cases h
  | cons d rest ih =>
    intro h
    by_cases hd : d = c
    · subst hd
      exact ⟨[], rest, rfl, by simp⟩
    · have : c ∈ rest := by
        rcases List.mem_cons.mp h with h2 | h2
        · exact absurd h2.symm hd
        · exact h2
      obtain ⟨A, B, hAB, hA⟩ := ih this
      refine ⟨d :: A, B, by rw [hAB]; rfl, ?_⟩
      intro hmem
      rcases List.mem_cons.mp hmem with h3 | h3
      · exact hd h3.symm
      · exact hA h3

theorem pySplitChar_head_of_decomp {c : Char} {A B : Str} (h : c ∉ A) :
    (pySplitChar c (A ++ c :: B)).getD 0 [] = A := by
  rw [pySplitChar_append_cons h B]
  rfl

theorem dropWhile_append_of_all {p : α → Bool} :
    ∀ {w : List α}, (∀ c ∈ w, p c = true) → ∀ t : List α,
      (w ++ t).dropWhile p = t.dropWhile p := by
  intro w
  induction w with
  | nil => intro _ t; rfl
  | cons a w2 ih =>
    intro hw t
    have ha : p a = true := hw a (List.mem_cons_self a w2)
    simp only [List.cons_append, List.dropWhile_cons, ha, if_true]
    exact ih (fun c hc => hw c (List.mem_cons_of_mem a hc)) t

theorem dropWhile_head_false {p : α → Bool} :
    ∀ (l : List α) {a : α} {t : List α}, l.dropWhile p = a :: t → p a = false := by
  intro l
  induction l with
  | nil => intro a t h; cases h
  | cons x xs ih =>
    intro a t h
    rw [List.dropWhile_cons] at h
    split at h
    · exact ih h
    · rename_i hx
      cases h
      exact Bool.eq_false_iff.mpr hx

theorem all_space_of_pyStrip_eq_nil {s : Str} (h : pyStrip s = []) :
    ∀ c ∈ s, pyIsSpace c = true := by
  unfold pyStrip at h
  have h1 : (s.dropWhile pyIsSpace).reverse.dropWhile pyIsSpace = [] := by
    rwa [List.reverse_eq_nil_iff] at h
  have h3 : ∀ c ∈ s.dropWhile pyIsSpace, pyIsSpace c = true := by
    intro c hc
    exact List.dropWhile_eq_nil_iff.mp h1 c (List.mem_reverse.mpr hc)
  intro c hc
  rw [← List.takeWhile_append_dropWhile pyIsSpace s] at hc
  rcases List.mem_append.mp hc with h2 | h2
  · exact List.mem_takeWhile_imp h2
  · exact h3 c h2

theorem mem_of_mem_pyStrip {x : Char} {s : Str} (h : x ∈ pyStrip s) : x ∈ s := by
  unfold pyStrip at h
  rw [List.mem_reverse] at h
  have h2 : List.Sublist
      (List.dropWhile pyIsSpace (s.dropWhile pyIsSpace).reverse)
      (s.dropWhile pyIsSpace).reverse := List.dropWhile_sublist _
  have h3 := h2.subset h
  rw [List.mem_reverse] at h3
  exact (List.dropWhile_sublist _).subset h3

theorem pyStrip_decomp {s : Str} (h : pyStrip s ≠ []) :
    ∃ w1 w2 : Str, s = w1 ++ pyStrip s ++ w2 ∧
      (∀ c ∈ w1, pyIsSpace c = true) ∧ (∀ c ∈ w2, pyIsSpace c = true) ∧
      (∃ mh mt, pyStrip s = mh :: mt ∧ pyIsSpace mh = false) ∧
      (∃ lh lt, (pyStrip s).reverse = lh :: lt ∧ pyIsSpace lh = false) := by
  have hmrev : (pyStrip s).reverse =
      (s.dropWhile pyIsSpace).reverse.dropWhile pyIsSpace := by
    simp [pyStrip]
  have hd_eq : s.dropWhile pyIsSpace =
      pyStrip s ++ ((s.dropWhile pyIsSpace).reverse.takeWhile pyIsSpace).reverse := by
    have hsplit := List.takeWhile_append_dropWhile pyIsSpace
      (s.dropWhile pyIsSpace).reverse
    have := congrArg List.reverse hsplit
    simp only [List.reverse_append, List.reverse_reverse] at this
    rw [← hmrev] at this
    simp only [List.reverse_reverse] at this
    exact this.symm
  obtain ⟨mh, mt, hmcons⟩ : ∃ mh mt, pyStrip s = mh :: mt := by
    cases hm : pyStrip s with
    | nil => exact absurd hm h
    | cons a b => exact ⟨a, b, rfl⟩
  obtain ⟨lh, lt, hlcons⟩ : ∃ lh lt, (pyStrip s).reverse = lh :: lt := by
    cases hm : (pyStrip s).reverse with
    | nil => exact absurd (by simpa using congrArg List.reverse hm) h
    | cons a b => exact ⟨a, b, rfl⟩
  refine ⟨s.takeWhile pyIsSpace,
    ((s.dropWhile pyIsSpace).reverse.takeWhile pyIsSpace).reverse, ?_, ?_, ?_,
    ⟨mh, mt, hmcons, ?_⟩, ⟨lh, lt, hlcons, ?_⟩⟩
  · conv_lhs => rw [← List.takeWhile_append_dropWhile pyIsSpace s]
    rw [List.append_assoc, ← hd_eq]
  · intro c hc; exact List.mem_takeWhile_imp hc
  · intro c hc; exact List.mem_takeWhile_imp (List.mem_reverse.mp hc)
  · apply dropWhile_head_false s
    rw [hd_eq, hmcons]
    rfl
  · apply dropWhile_head_false ((s.dropWhile pyIsSpace).reverse)
    rw [← hmrev, hlcons]

theorem pyStrip_sandwich (w1 m w2 : Str)
    (hw1 : ∀ c ∈ w1, pyIsSpace c = true) (hw2 : ∀ c ∈ w2, pyIsSpace c = true)
    (hh : ∃ mh mt, m = mh :: mt ∧ pyIsSpace mh = false)
    (hl : ∃ lh lt, m.reverse = lh :: lt ∧ pyIsSpace lh = false) :
    pyStrip (w1 ++ m ++ w2) = m := by
  obtain ⟨mh, mt, hmcons, hmh⟩ := hh
  obtain ⟨lh, lt, hlcons, hlh⟩ := hl
  unfold pyStrip
  have h1 : (w1 ++ m ++ w2).dropWhile pyIsSpace = m ++ w2 := by
    rw [List.append_assoc, dropWhile_append_of_all hw1, hmcons]
    simp only [List.cons_append, List.dropWhile_cons, hmh]
    simp
  rw [h1]
  have h2 : (m ++ w2).reverse.dropWhile pyIsSpace = m.reverse := by
    rw [List.reverse_append,
      dropWhile_append_of_all (fun c hc => hw2 c (List.mem_reverse.mp hc)),
      hlcons]
    simp only [List.dropWhile_cons, hlh]
    simp
  rw [h2]
  simp

theorem pyReplaceFirst_nil_old (s new : Str) :
    pyReplaceFirst s [] new = new ++ s := by
  cases s <;> rfl

theorem pyReplaceFirst_found {o : Char} {os : Str} (t new : Str) :
    pyReplaceFirst ((o :: os) ++ t) (o :: os) new = new ++ t := by
  show pyReplaceFirst (o :: (os ++ t)) (o :: os) new = new ++ t
  simp only [pyReplaceFirst]
  rw [if_pos]
  · congr 1
    show ((o :: os) ++ t).drop (o :: os).length = t
    exact List.drop_left _ _
  · exact List.isPrefixOf_iff_prefix.mpr ⟨t, rfl⟩

theorem pyReplaceFirst_space_block {o : Char} {os : Str}
    (hno : pyIsSpace o = false) :
    ∀ {w : Str}, (∀ c ∈ w, pyIsSpace c = true) → ∀ t new : Str,
    pyReplaceFirst (w ++ (o :: os) ++ t) (o :: os) new = w ++ new ++ t := by
  intro w
  induction w with
  | nil => intro _ t new; simpa using pyReplaceFirst_found t new
  | cons a w2 ih =>
    intro hw t new
    have ha : pyIsSpace a = true := hw a (List.mem_cons_self a w2)
    have hne : (o == a) = false := by
      apply beq_eq_false_iff_ne.mpr
      intro he
      rw [he, ha] at hno
      cases hno
    show pyReplaceFirst (a :: (w2 ++ (o :: os) ++ t)) (o :: os) new = _
    simp only [pyReplaceFirst, List.isPrefixOf, hne, Bool.false_and, if_neg,
      Bool.false_eq_true, not_false_iff]
    rw [ih (fun c hc => hw c (List.mem_cons_of_mem a hc)) t new]
    rfl

theorem not_mem_pyReplaceFirst {x : Char} :
    ∀ {old s new : Str}, x ∉ s → x ∉ new → x ∉ pyReplaceFirst s old new := by
  intro old
  cases old with
  | nil =>
    intro s new hs hn hmem
    rw [pyReplaceFirst_nil_old] at hmem
    rcases List.mem_append.mp hmem with h2 | h2
    · exact hn h2
    · exact hs h2
  | cons o os =>
    intro s
    induction s with
    | nil => intro new _ _ hmem; cases hmem
    | cons c rest ih =>
      intro new hs hn hmem
      simp only [pyReplaceFirst] at hmem
      split at hmem
      · rcases List.mem_append.mp hmem with h2 | h2
        · exact hn h2
        · exact hs (List.drop_subset _ _ h2)
      · rcases List.mem_cons.mp hmem with h2 | h2
        · exact hs (h2 ▸ List.mem_cons_self c rest)
        · exact ih (fun hm => hs (List.mem_cons_of_mem c hm)) hn h2

theorem space_ne_eq {c : Char} (h : pyIsSpace c = true) : c ≠ '=' := by
  intro he
  subst he
  exact absurd h (by decide)

/-- After `line.replace(var_name, '_' + var_name, 1)`, where `var_name`
is the stripped text before the first `=` of `line` and did not already start
with `_`, the stripped text before the first `=` of the new line starts
with `_`. -/
theorem var_after_replace (line : Str) (hmem : '=' ∈ line) :
    pyStartswith
      (pyStrip ((pySplitChar '='
         (pyReplaceFirst line (pyStrip ((pySplitChar '=' line).getD 0 []))
           ('_' :: pyStrip ((pySplitChar '=' line).getD 0 [])))).getD 0 []))
      "_".toList = true := by
  obtain ⟨pre, rest, hline, hpre⟩ := exists_first_sep hmem
  have hhead : (pySplitChar '=' line).getD 0 [] = pre := by
    rw [hline]; exact pySplitChar_head_of_decomp hpre
  rw [hhead]
  by_cases hv : pyStrip pre = []
  · have hallsp := all_space_of_pyStrip_eq_nil hv
    rw [hv]
    have hrepl : pyReplaceFirst line [] ['_'] = '_' :: line :=
      pyReplaceFirst_nil_old line ['_']
    rw [hrepl, hline]
    have h2 : '=' ∉ ('_' :: pre) := by
      intro hm
      rcases List.mem_cons.mp hm with h3 | h3
      · cases h3
      · exact hpre h3
    rw [show ('_' :: (pre ++ '=' :: rest)) = ('_' :: pre) ++ '=' :: rest from rfl,
      pySplitChar_head_of_decomp h2]
    have hstrip : pyStrip ('_' :: pre) = ['_'] := by
      have := pyStrip_sandwich [] ['_'] pre
        (by simp) hallsp ⟨'_', [], rfl, by decide⟩ ⟨'_', [], by simp, by decide⟩
      simpa using this
    rw [hstrip]
    decide
  · obtain ⟨w1, w2, hdecomp, hw1, hw2, hhd, hld⟩ := pyStrip_decomp hv
    obtain ⟨mh, mt, hmcons, hmh⟩ := hhd
    obtain ⟨lh, lt, hlcons, hlh⟩ := hld
    have hline2 : line = w1 ++ pyStrip pre ++ (w2 ++ '=' :: rest) := by
      rw [hline]
      conv_lhs => rw [hdecomp]
      simp [List.append_assoc]
    have hrepl : pyReplaceFirst line (pyStrip pre) ('_' :: pyStrip pre) =
        w1 ++ ('_' :: pyStrip pre) ++ (w2 ++ '=' :: rest) := by
      rw [hline2, hmcons]
      exact pyReplaceFirst_space_block hmh hw1 _ _
    rw [hrepl]
    have hA : ('=' : Char) ∉ (w1 ++ '_' :: pyStrip pre ++ w2) := by
      intro hm
      rcases List.mem_append.mp hm with h3 | h3
      · rcases List.mem_append.mp h3 with h4 | h4
        · exact space_ne_eq (hw1 _ h4) rfl
        · rcases List.mem_cons.mp h4 with h5 | h5
          · cases h5
          · exact hpre (mem_of_mem_pyStrip h5)
      · exact space_ne_eq (hw2 _ h3) rfl
    have hshape : w1 ++ ('_' :: pyStrip pre) ++ (w2 ++ '=' :: rest) =
        (w1 ++ '_' :: pyStrip pre ++ w2) ++ '=' :: rest := by
      simp [List.append_assoc]
    rw [hshape, pySplitChar_head_of_decomp hA]
    have hstrip : pyStrip (w1 ++ ('_' :: pyStrip pre) ++ w2) =
        '_' :: pyStrip pre := by
      refine pyStrip_sandwich w1 ('_' :: pyStrip pre) w2 hw1 hw2
        ⟨'_', pyStrip pre, rfl, by decide⟩ ?_
      refine ⟨lh, lt ++ ['_'], ?_, hlh⟩
      rw [show ('_' :: pyStrip pre).reverse = (pyStrip pre).reverse ++ ['_'] by
        simp]
      rw [hlcons]
      rfl
    rw [show (w1 ++ '_' :: pyStrip pre ++ w2) =
      w1 ++ ('_' :: pyStrip pre) ++ w2 by simp [List.append_assoc], hstrip]
    simp [pyStartswith, List.isPrefixOf]

theorem getD_mem_of_lt {l : List α} {k : Nat} {d : α} (hk : k < l.length) :
    l.getD k d ∈ l := by
  rw [List.getD_eq_getElem?_getD, List.getElem?_eq_getElem hk, Option.getD_some]
  exact List.getElem_mem hk

theorem getD_zero_mem {l : List α} {d : α} (h : l ≠ []) : l.getD 0 d ∈ l := by
  cases l with
  | nil => exact absurd rfl h
  | cons a rest => exact List.mem_cons_self a rest

/-- C9 (claim): the Simple-Fix Predictor is idempotent — if
`predict_simple_fix issue c` produces fixed content `c2`, then
`predict_simple_fix issue c2` returns no prediction.  In particular an
inserted import statement is never inserted a second time (the
`import_stmt not in file_content` guard sees the inserted line), and a
variable that was just underscore-prefixed is never prefixed again (the
new assignment target starts with `_`). -/
theorem predict_simple_fix_idem (cfg : Config) (issue : Issue) (c c2 : Str)
    (h : predict_simple_fix cfg issue c = some c2) :
    predict_simple_fix cfg issue c2 = none := by
  simp only [predict_simple_fix] at h ⊢
  split at h
  · cases h
  · rename_i hon
    rw [if_neg hon]
    split at h
    · rename_i h821
      rw [if_pos h821]
      split at h
      · rename_i hmsg
        rw [if_pos hmsg]
        split at h
        · rename_i stmt heq
          split at h
          · rename_i hcont
            have hc2 : c2 = apply_import_fix c stmt := (Option.some_inj.mp h).symm
            rw [if_neg]
            intro hfalse
            rw [hc2, contains_apply_import_fix] at hfalse
            cases hfalse
          · cases h
        · cases h
      · cases h
    · rename_i h821f
      rw [if_neg h821f]
      split at h
      · rename_i h841
        rw [if_pos h841]
        split at h
        · rename_i hbound
          split at h
          · rename_i hsp
            split at h
            · rename_i hvar
              -- names for the pieces of the original run
              have hc2 : c2 = pyJoin ['\n']
                  ((pySplitChar '\n' c).set ((issue.line : Int) - 1).toNat
                    (pyReplaceFirst
                      ((pySplitChar '\n' c).getD ((issue.line : Int) - 1).toNat [])
                      (pyStrip ((pySplitChar '='
                        ((pySplitChar '\n' c).getD ((issue.line : Int) - 1).toNat [])).getD 0 []))
                      ('_' :: pyStrip ((pySplitChar '='
                        ((pySplitChar '\n' c).getD ((issue.line : Int) - 1).toNat [])).getD 0 [])))) :=
                (Option.some_inj.mp h).symm
              obtain ⟨hb0, hblt⟩ := hbound
              have hk : ((issue.line : Int) - 1).toNat < (pySplitChar '\n' c).length := by
                omega
              set k := ((issue.line : Int) - 1).toNat with hkdef
              set lines := pySplitChar '\n' c with hlines
              set line := lines.getD k [] with hline
              set var := pyStrip ((pySplitChar '=' line).getD 0 []) with hvdef
              set newline := pyReplaceFirst line var ('_' :: var) with hnl
              -- the written content splits back into the updated lines
              have hnl_line : '\n' ∉ line :=
                not_mem_of_mem_pySplitChar line (hline ▸ getD_mem_of_lt hk)
              have hnl_var : ('\n' : Char) ∉ ('_' :: var) := by
                intro hm
                rcases List.mem_cons.mp hm with h5 | h5
                · cases h5
                · exact hnl_line (mem_of_mem_pySplitChar _
                    (getD_zero_mem (pySplitChar_ne_nil '=' line))
                    (mem_of_mem_pyStrip h5))
              have hnl_new : '\n' ∉ newline :=
                not_mem_pyReplaceFirst hnl_line hnl_var
              have hset_mem : ∀ l ∈ lines.set k newline, ('\n' : Char) ∉ l := by
                intro l hl
                rcases List.mem_or_eq_of_mem_set hl with h5 | h5
                · exact not_mem_of_mem_pySplitChar l h5
                · exact h5 ▸ hnl_new
              have hset_ne : lines.set k newline ≠ [] := by
                intro hnil
                have : lines.length = 0 := by
                  rw [← List.length_set lines k newline, hnil]
                  rfl
                exact pySplitChar_ne_nil '\n' c
                  (List.eq_nil_of_length_eq_zero this)
              have hsplit2 : pySplitChar '\n' c2 = lines.set k newline := by
                rw [hc2]
                exact pySplitChar_pyJoin hset_ne hset_mem
              rw [hsplit2]
              rw [if_pos (by
                refine ⟨hb0, ?_⟩
                rw [List.length_set]
                exact hblt)]
              have hget : (lines.set k newline).getD k [] = newline := by
                rw [List.getD_eq_getElem?_getD, List.getElem?_set_self hk,
                  Option.getD_some]
              rw [hget]
              by_cases hsp2 : pyContains newline " = ".toList = true
              · rw [if_pos hsp2]
                have hmemEq : '=' ∈ line := by
                  have hinf := infix_of_pyContains hsp
                  exact hinf.subset (by decide)
                have hstart := var_after_replace line hmemEq
                rw [← hvdef, ← hnl] at hstart
                rw [if_neg]
                intro hfalse
                rw [hstart] at hfalse
                cases hfalse
              · rw [if_neg hsp2]
            · cases h
          · cases h
        · cases h
      · cases h

/-- Witness for `predict_simple_fix_idem`: prefixing the unused variable of
line 2 succeeds once, and the predictor declines on the result. -/
theorem predict_simple_fix_idem_witness :
    predict_simple_fix cfgDefault
      ⟨"F841".toList, "local variable x is assigned to but never used".toList, 2⟩
      "def f():\n    _x = 5\n    return 1\n".toList = none :=
  predict_simple_fix_idem cfgDefault
    ⟨"F841".toList, "local variable x is assigned to but never used".toList, 2⟩
    "def f():\n    x = 5\n    return 1\n".toList
    "def f():\n    _x = 5\n    return 1\n".toList (by decide)

/-! ## In-memory merge (`_merge_cluster_fixes`) and dispatch sizing -/

/-- A successful result of `fix_cluster_with_claude` as consumed by
`_merge_cluster_fixes`: the whole-file fixed content. -/
structure ClusterFix where
  fixed_content : Str
deriving DecidableEq, Repr

/-- `_merge_cluster_fixes` (non-worktree mode): `cluster_fixes[-1]`'s
content if any fixes succeeded, else `current`. -/
def merge_cluster_fixes (original current : Str)
    (cluster_fixes : List ClusterFix) : Str :=
  match cluster_fixes.getLast? with
  | some r => r.fixed_content
  | none => current

/-- C1 (counterexample): on the in-memory (non-worktree) merge path, two
successful cluster fixes against the same base — the first changing line 1,
the second changing line 2 — merge to exactly the second fix's content; the
first fix's change (`a1`) is lost even though both attempts reported
success. -/
theorem merge_cluster_fixes_counterexample :
    merge_cluster_fixes "a\nb".toList "a\nb".toList
        [⟨"a1\nb".toList⟩, ⟨"a\nb2".toList⟩] = "a\nb2".toList ∧
    pyContains "a1\nb".toList "a1".toList = true ∧
    pyContains (merge_cluster_fixes "a\nb".toList "a\nb".toList
        [⟨"a1\nb".toList⟩, ⟨"a\nb2".toList⟩]) "a1".toList = false := by
  decide

/-- C1 (amended): the in-memory merge keeps exactly the LAST successful
cluster fix's content (`current` when none succeeded); any change present
only in an earlier successful fix is dropped — so the no-lost-fix invariant
holds on this path only when at most one cluster fix succeeds or the last
fix's content already subsumes the others. -/
theorem merge_cluster_fixes_last (original current : Str)
    (fixes : List ClusterFix) (h : fixes ≠ []) :
    merge_cluster_fixes original current fixes = (fixes.getLast h).fixed_content ∧
    ∀ x : Str, pyContains (fixes.getLast h).fixed_content x = false →
      pyContains (merge_cluster_fixes original current fixes) x = false := by
  have heq : merge_cluster_fixes original current fixes =
      (fixes.getLast h).fixed_content := by
    unfold merge_cluster_fixes
    rw [List.getLast?_eq_getLast fixes h]
  exact ⟨heq, fun x hx => heq ▸ hx⟩

/-- Witness for `merge_cluster_fixes_last` at two concrete fixes. -/
theorem merge_cluster_fixes_last_witness :
    merge_cluster_fixes "base".toList "base".toList
        [⟨"one".toList⟩, ⟨"two".toList⟩] = "two".toList ∧
    ∀ x : Str, pyContains "two".toList x = false →
      pyContains (merge_cluster_fixes "base".toList "base".toList
        [⟨"one".toList⟩, ⟨"two".toList⟩]) x = false :=
  merge_cluster_fixes_last "base".toList "base".toList
    [⟨"one".toList⟩, ⟨"two".toList⟩] (by decide)

/-- The worker-pool size `_fix_single_file` passes to `ThreadPoolExecutor`:
`min(self.max_workers, len(clusters))`. -/
def executor_pool_size (cfg : Config) (clusters : List IssueCluster) : Nat :=
  min cfg.max_workers clusters.length

/-- The clusters `_fix_single_file` submits to the pool: on the worktree path
only `clusters[:self.max_worktrees]`, on the in-memory path all of them.
`git_root` is the result of `_get_git_root()` when worktrees are enabled. -/
def submitted_clusters (cfg : Config) (git_root : Option Str)
    (clusters : List IssueCluster) : List IssueCluster :=
  if cfg.use_git_worktrees ∧ git_root ≠ none then
    clusters.take cfg.max_worktrees
  else clusters

/-- The pool size the claim asserts (spec §4.4): `min(configured max
workers, cluster count, workspace quota)`. -/
def spec_pool_size (cfg : Config) (clusters : List IssueCluster) : Nat :=
  min (min cfg.max_workers clusters.length) cfg.max_worktrees

/-- A minimal anonymous cluster used for concrete dispatch inputs. -/
def trivialCluster : IssueCluster :=
  { issues := [⟨"r".toList, [], 0⟩], start_line := 0, end_line := 0,
    fingerprint := [] }

/-- C5 (counterexample): with `max_workers = 10`, `max_worktrees = 2` and five
clusters, the pool the code creates has size `min(10, 5) = 5`, not the claimed
`min(10, 5, 2) = 2`; moreover on the worktree path only the first two of the
five clusters are submitted at all, so not every cluster is dispatched. -/
theorem executor_pool_counterexample :
    executor_pool_size { cfgDefault with max_worktrees := 2 }
        (List.replicate 5 trivialCluster) ≠
      spec_pool_size { cfgDefault with max_worktrees := 2 }
        (List.replicate 5 trivialCluster) ∧
    submitted_clusters { cfgDefault with max_worktrees := 2, use_git_worktrees := true }
        (some "/repo".toList) (List.replicate 5 trivialCluster) ≠
      List.replicate 5 trivialCluster := by
  decide

/-- C5 (amended): the pool size is `min(configured max workers, cluster
count)` — the workspace quota does not bound the pool; instead, on the
worktree path the quota truncates the submitted list to the first
`max_worktrees` clusters (`min(cluster count, quota)` of them), and every
submitted cluster comes from the input cluster list. -/
theorem executor_pool_size_amended (cfg : Config) (git_root : Option Str)
    (clusters : List IssueCluster) :
    executor_pool_size cfg clusters = min cfg.max_workers clusters.length ∧
    (submitted_clusters cfg git_root clusters).length =
      (if cfg.use_git_worktrees ∧ git_root ≠ none then
        min cfg.max_worktrees clusters.length
      else clusters.length) ∧
    ∀ cl ∈ submitted_clusters cfg git_root clusters, cl ∈ clusters := by
  refine ⟨rfl, ?_, ?_⟩
  · unfold submitted_clusters
    split
    · simp [List.length_take]
    · rfl
  · intro cl hcl
    unfold submitted_clusters at hcl
    split at hcl
    · exact List.take_subset _ _ hcl
    · exact hcl

/-! ## Parallel Fix Executor (`fix_cluster_with_worktree`,
`fix_cluster_with_claude`)

These functions drive subprocesses; their code is modelled as functions of
an environment recording the outcome of each external call.  Python
exceptions are modelled as `Except Str`: the `try:` body of each function is
a value of `Except Str FixResult`, and the function itself matches on it the
way the `except Exception as e:` clause does. -/

/-- Outcome of one `subprocess.run` of the external agent. -/
inductive AgentCall where
  /-- The process ran to completion with this exit code, stdout and stderr. -/
  | exits (code : Nat) (out err : Str)
  /-- `subprocess.TimeoutExpired` was raised. -/
  | timeoutExpired
  /-- Some other exception (e.g. `FileNotFoundError`) was raised. -/
  | raises (msg : Str)
deriving DecidableEq, Repr

/-- Environment of `fix_cluster_with_claude`: the agent call outcome and the
read-back of the fixed file (`none` = `read_text` raised). -/
structure ClaudeEnv where
  agent : AgentCall
  readFixed : Option Str
deriving DecidableEq, Repr

/-- The result dictionary a cluster fix attempt produces. -/
structure FixResult where
  success : Bool
  cluster : IssueCluster
  error : Option Str
  fixed_content : Option Str
  patch : Option Str
  worktree_path : Option Str
  rel_path : Option Str
deriving DecidableEq, Repr

/-- A `FixResult` carrying only failure information. -/
def failResult (cluster : IssueCluster) (e : Str) : FixResult :=
  { success := false, cluster := cluster, error := some e,
    fixed_content := none, patch := none, worktree_path := none,
    rel_path := none }

/-- The `try:` body of `fix_cluster_with_claude`. -/
def fix_cluster_with_claude_body (cluster : IssueCluster) (env : ClaudeEnv) :
    Except Str FixResult :=
  match env.agent with
  | .raises msg => .error msg
  | .timeoutExpired => .error "TimeoutExpired".toList
  | .exits code out err =>
    if code = 0 then
      match env.readFixed with
      | none => .error "read_text failed".toList
      | some content =>
        .ok { success := true, cluster := cluster, error := none,
              fixed_content := some content, patch := none,
              worktree_path := none, rel_path := none }
    else
      .ok (failResult cluster (if err ≠ [] then err else out))

/-- `fix_cluster_with_claude`: the body with its `except Exception` clause. -/
def fix_cluster_with_claude (cluster : IssueCluster) (env : ClaudeEnv) :
    FixResult :=
  match fix_cluster_with_claude_body cluster env with
  | .ok r => r
  | .error e => failResult cluster e

/-- Environment of `fix_cluster_with_worktree`. -/
structure WorktreeEnv where
  /-- `_create_worktree_for_cluster` result (it catches its own exceptions
  and returns `None` on failure). -/
  createWorktree : Option Str
  /-- Whether `Path(file_path).relative_to(base_path)` succeeds (it raises
  `ValueError` when the file is not under the base). -/
  relPathOk : Bool
  /-- The workspace-relative path used when `relPathOk`. -/
  relPath : Str
  /-- Whether the target file exists inside the worktree. -/
  fileExists : Bool
  /-- `worktree_file.read_text()` (`none` = raises). -/
  readContent : Option Str
  /-- Environment of the nested `fix_cluster_with_claude` call. -/
  claude : ClaudeEnv
  /-- The `git diff HEAD` subprocess: `none` = `subprocess.run` raised;
  `some (returncode, stdout)` otherwise.  The source never inspects the
  returncode. -/
  diff : Option (Nat × Str)
deriving DecidableEq, Repr

/-- The `try:` body of `fix_cluster_with_worktree`, entered after worktree
creation succeeded with path `wt`.  `predicted_fixes` replace the worktree
content wholesale before the agent runs (each entry's content is the whole
file after that fix). -/
def fix_cluster_with_worktree_body (cluster : IssueCluster)
    (predicted_fixes : List (Issue × Str)) (wt : Str) (env : WorktreeEnv) :
    Except Str FixResult :=
  if env.relPathOk = false then .error "ValueError: relative_to".toList
  else if env.fileExists = false then
    .ok (failResult cluster ("File not found in worktree: ".toList ++ env.relPath))
  else
    match env.readContent with
    | none => .error "read_text failed".toList
    | some _ =>
      let result := fix_cluster_with_claude cluster env.claude
      if result.success then
        match env.diff with
        | none => .error "git diff raised".toList
        | some (_, out) =>
          .ok { result with
                patch := some out
                worktree_path := some wt
                rel_path := some env.relPath }
      else .ok result

/-- `fix_cluster_with_worktree`: creation failure short-circuits; the body's
exceptions are caught and mapped to a failure result.  (The `finally:` clause
is a no-op `pass`; worktree cleanup is modelled with the session accounting
model below.) -/
def fix_cluster_with_worktree (cluster : IssueCluster)
    (predicted_fixes : List (Issue × Str)) (env : WorktreeEnv) : FixResult :=
  match env.createWorktree with
  | none => failResult cluster "Failed to create worktree".toList
  | some wt =>
    match fix_cluster_with_worktree_body cluster predicted_fixes wt env with
    | .ok r => r
    | .error e => failResult cluster e

/-- C6 (counterexample): when everything succeeds except the `git diff`
patch-extraction subprocess, which exits non-zero (e.g. exit code 1 with
empty output), the result still reports `success = true` with an empty patch
— a diff-extraction failure is NOT mapped to `success:false` because the
source never checks the diff subprocess's returncode. -/
theorem fix_cluster_diff_failure_counterexample :
    (fix_cluster_with_worktree trivialCluster []
      { createWorktree := some "/repo/.claude/worktrees/w1".toList
        relPathOk := true
        relPath := "f.py".toList
        fileExists := true
        readContent := some "x = 1".toList
        claude := { agent := .exits 0 [] [], readFixed := some "x = 1".toList }
        diff := some (1, []) }).success = true := by
  decide

/-- Characterization of `fix_cluster_with_claude`: success exactly on agent
exit 0 plus a successful read-back; all failures carry an error string. -/
theorem claude_success_iff (cluster : IssueCluster) (ce : ClaudeEnv) :
    ((fix_cluster_with_claude cluster ce).success = true ↔
      ((∃ out err, ce.agent = .exits 0 out err) ∧ ce.readFixed ≠ none)) ∧
    ((fix_cluster_with_claude cluster ce).success = false →
      (fix_cluster_with_claude cluster ce).error ≠ none) := by
  obtain ⟨ag, rf⟩ := ce
  rcases ag with ⟨code, out, err⟩ | _ | m
  · by_cases hc : code = 0
    · subst hc
      rcases rf with _ | fx <;>
        simp [fix_cluster_with_claude, fix_cluster_with_claude_body, failResult]
    · rcases rf with _ | fx <;>
        simp [fix_cluster_with_claude, fix_cluster_with_claude_body, failResult,
          hc]
  · simp [fix_cluster_with_claude, fix_cluster_with_claude_body, failResult]
  · simp [fix_cluster_with_claude, fix_cluster_with_claude_body, failResult]

/-- C6 (amended): `fix_cluster_with_worktree` succeeds exactly when worktree
creation, path resolution, file existence, the content read, the agent call
(exit 0), the fixed-content read, and the diff *subprocess launch* all
succeed — a non-zero diff exit still succeeds (only a raising diff call is
caught), see the counterexample.  Every other error condition — creation
failure, missing file, agent non-zero exit, timeout, or any raised
exception — yields `success = false` with a non-`none` error string, and the
nested `fix_cluster_with_claude` likewise maps agent failure, timeout and
raised exceptions to failure results; no exception escapes either boundary
(every `Except.error` of the modelled `try:` bodies is caught by the
wrappers). -/
theorem fix_cluster_error_handling (cluster : IssueCluster)
    (predicted_fixes : List (Issue × Str)) (env : WorktreeEnv)
    (cenv : ClaudeEnv) :
    ((fix_cluster_with_worktree cluster predicted_fixes env).success = true ↔
      (env.createWorktree ≠ none ∧ env.relPathOk = true ∧
        env.fileExists = true ∧ env.readContent ≠ none ∧
        (∃ out err, env.claude.agent = .exits 0 out err) ∧
        env.claude.readFixed ≠ none ∧ env.diff ≠ none)) ∧
    ((fix_cluster_with_worktree cluster predicted_fixes env).success = false →
      (fix_cluster_with_worktree cluster predicted_fixes env).error ≠ none) ∧
    ((fix_cluster_with_claude cluster cenv).success = true ↔
      ((∃ out err, cenv.agent = .exits 0 out err) ∧ cenv.readFixed ≠ none)) ∧
    ((fix_cluster_with_claude cluster cenv).success = false →
      (fix_cluster_with_claude cluster cenv).error ≠ none) := by
  obtain ⟨cw, relOk, rp, fe, rc, ce, df⟩ := env
  refine ⟨?_, ?_, (claude_success_iff cluster cenv).1,
    (claude_success_iff cluster cenv).2⟩
  · rcases cw with _ | wt
    · simp [fix_cluster_with_worktree, failResult]
    · cases relOk
      · simp [fix_cluster_with_worktree, fix_cluster_with_worktree_body,
          failResult]
      · cases fe
        · simp [fix_cluster_with_worktree, fix_cluster_with_worktree_body,
            failResult]
        · rcases rc with _ | ct
          · simp [fix_cluster_with_worktree, fix_cluster_with_worktree_body,
              failResult]
          · by_cases hcs : (fix_cluster_with_claude cluster ce).success = true
            · rcases df with _ | ⟨dc, dout⟩
              · simp [fix_cluster_with_worktree, fix_cluster_with_worktree_body,
                  failResult, hcs]
              · have h5 := (claude_success_iff cluster ce).1.mp hcs
                simp [fix_cluster_with_worktree, fix_cluster_with_worktree_body,
                  hcs, h5.1, h5.2]
            · rw [Bool.not_eq_true] at hcs
              constructor
              · intro htrue
                exfalso
                simp [fix_cluster_with_worktree, fix_cluster_with_worktree_body,
                  hcs] at htrue
              · rintro ⟨-, -, -, -, h5, h6, -⟩
                exact absurd ((claude_success_iff cluster ce).1.mpr ⟨h5, h6⟩)
                  (by rw [hcs]; simp)
  · rcases cw with _ | wt
    · simp [fix_cluster_with_worktree, failResult]
    · cases relOk
      · simp [fix_cluster_with_worktree, fix_cluster_with_worktree_body,
          failResult]
      · cases fe
        · simp [fix_cluster_with_worktree, fix_cluster_with_worktree_body,
            failResult]
        · rcases rc with _ | ct
          · simp [fix_cluster_with_worktree, fix_cluster_with_worktree_body,
              failResult]
          · by_cases hcs : (fix_cluster_with_claude cluster ce).success = true
            · rcases df with _ | ⟨dc, dout⟩
              · simp [fix_cluster_with_worktree, fix_cluster_with_worktree_body,
                  failResult, hcs]
              · simp [fix_cluster_with_worktree, fix_cluster_with_worktree_body,
                  hcs]
            · rw [Bool.not_eq_true] at hcs
              have herr := (claude_success_iff cluster ce).2 hcs
              intro _
              simp only [fix_cluster_with_worktree,
                fix_cluster_with_worktree_body, hcs]
              simp [hcs, herr]

/-! ## Merge Engine (`_merge_worktree_fixes`, `_merge_with_claude`) -/

/-- A successful worktree result as consumed by `_merge_worktree_fixes`:
`result['cluster']`, `result['patch']`, `result['worktree_path']`,
`result['rel_path']`. -/
structure WorktreeResult where
  cluster : IssueCluster
  patch : Str
  worktree_path : Str
  rel_path : Str
deriving DecidableEq, Repr

/-- Environment of the merge engine: outcomes of the external calls. -/
structure MergeEnv where
  /-- `git apply --3way --whitespace=fix` fed this patch exits 0? -/
  applyPatch : Str → Bool
  /-- The agent merge subprocess exits 0? -/
  claudeMergeOk : Bool
  /-- Reading a result's fixed file from its worktree
  (`none` = the worktree file no longer exists). -/
  readWorktreeFile : WorktreeResult → Option Str
  /-- The octopus `git merge` exits 0? -/
  octopusOk : Bool

/-- Sort key of `sorted(cluster_results, key=lambda r: r['cluster'].start_line)`. -/
def wrLe (a b : WorktreeResult) : Bool := a.cluster.start_line ≤ b.cluster.start_line

/-- `_merge_with_claude`: collect the fixed versions still present in their
worktrees; fail if none, otherwise succeed iff the agent merge call exits
cleanly.  (Its `except` clause maps exceptions to `False` as well.) -/
def merge_with_claude (env : MergeEnv) (cluster_results : List WorktreeResult) :
    Bool :=
  let fixed_versions := cluster_results.filterMap env.readWorktreeFile
  if fixed_versions.isEmpty then false else env.claudeMergeOk

/-- Trace of what one `_merge_worktree_fixes` run did. -/
structure MergeTrace where
  /-- Patches successfully applied with `git apply`, in application order. -/
  applied : List Str
  /-- The result set handed to `_merge_with_claude`, when it was invoked. -/
  agentMergeOn : Option (List WorktreeResult)
deriving DecidableEq, Repr

/-- The `sequential` strategy loop: apply each non-empty patch in order; on
the first failed application fall back to `_merge_with_claude` over
`sorted_results` (the full sorted set). -/
def seq_apply (env : MergeEnv) (sorted_results : List WorktreeResult) :
    List WorktreeResult → Bool × MergeTrace
  | [] => (true, ⟨[], none⟩)
  | r :: rest =>
    if r.patch ≠ [] then
      if env.applyPatch r.patch then
        let (b, t) := seq_apply env sorted_results rest
        (b, ⟨r.patch :: t.applied, t.agentMergeOn⟩)
      else
        (merge_with_claude env sorted_results, ⟨[], some sorted_results⟩)
    else seq_apply env sorted_results rest

/-- `_merge_worktree_fixes`: dispatch on the configured strategy over the
results sorted by cluster `start_line`.  The octopus branch commits each
non-empty patch on a branch and multi-merges; an unknown strategy falls
through every branch and returns `True`. -/
def merge_worktree_fixes (cfg : Config) (env : MergeEnv)
    (cluster_results : List WorktreeResult) : Bool × MergeTrace :=
  if cluster_results.isEmpty then (true, ⟨[], none⟩)
  else
    let sorted_results := pySorted wrLe cluster_results
    if cfg.worktree_merge_strategy = "claude".toList then
      (merge_with_claude env sorted_results, ⟨[], some sorted_results⟩)
    else if cfg.worktree_merge_strategy = "sequential".toList then
      seq_apply env sorted_results sorted_results
    else if cfg.worktree_merge_strategy = "octopus".toList then
      (if sorted_results.any (fun r => r.patch ≠ []) then env.octopusOk
       else true, ⟨[], none⟩)
    else (true, ⟨[], none⟩)

theorem stableInsert_pairwise_of {le : α → α → Bool}
    (htot : ∀ a b : α, le a b = false → le b a = true)
    (htrans : ∀ a b c : α, le a b = true → le b c = true → le a c = true)
    {a : α} {l : List α} (h : l.Pairwise (fun x y => le x y = true)) :
    (stableInsert le a l).Pairwise (fun x y => le x y = true) := by
  induction l with
  | nil => simp [stableInsert]
  | cons b bs ih =>
    rcases List.pairwise_cons.mp h with ⟨hb, hbs⟩
    simp only [stableInsert]
    split
    · rename_i hle
      refine List.pairwise_cons.mpr ⟨?_, ih hbs⟩
      intro x hx
      rcases List.mem_cons.mp ((stableInsert_perm le a bs).mem_iff.mp hx) with
        h2 | h2
      · subst h2; exact hle
      · exact hb x h2
    · rename_i hle
      have hab : le a b = true := htot b a (Bool.eq_false_iff.mpr hle)
      refine List.pairwise_cons.mpr ⟨?_, h⟩
      intro x hx
      rcases List.mem_cons.mp hx with h2 | h2
      · subst h2; exact hab
      · exact htrans a b x hab (hb x h2)

theorem pySorted_pairwise_of (le : α → α → Bool)
    (htot : ∀ a b : α, le a b = false → le b a = true)
    (htrans : ∀ a b c : α, le a b = true → le b c = true → le a c = true)
    (l : List α) :
    (pySorted le l).Pairwise (fun x y => le x y = true) := by
  suffices h : ∀ acc : List α, acc.Pairwise (fun x y => le x y = true) →
      (List.foldl (fun acc a => stableInsert le a acc) acc l).Pairwise
        (fun x y => le x y = true) from h [] List.Pairwise.nil
  induction l with
  | nil => intro acc h; exact h
  | cons x xs ih =>
    intro acc h
    exact ih _ (stableInsert_pairwise_of htot htrans h)

theorem seq_apply_all_ok (env : MergeEnv) (sorted_results : List WorktreeResult) :
    ∀ l : List WorktreeResult,
    (∀ r ∈ l, r.patch ≠ [] → env.applyPatch r.patch = true) →
    seq_apply env sorted_results l =
      (true, ⟨(l.map (fun r => r.patch)).filter (fun p => !p.isEmpty), none⟩) := by
  intro l
  induction l with
  | nil => intro _; rfl
  | cons r rest ih =>
    intro h
    have hrec := ih (fun x hx hne => h x (List.mem_cons_of_mem r hx) hne)
    by_cases hp : r.patch = []
    · simp [seq_apply, hp, hrec]
    · have happ := h r (List.mem_cons_self r rest) hp
      simp [seq_apply, hp, happ, hrec]

theorem seq_apply_first_fail (env : MergeEnv)
    (sorted_results : List WorktreeResult) :
    ∀ (good : List WorktreeResult) (bad : WorktreeResult)
      (rest : List WorktreeResult),
    (∀ r ∈ good, r.patch ≠ [] → env.applyPatch r.patch = true) →
    bad.patch ≠ [] → env.applyPatch bad.patch = false →
    seq_apply env sorted_results (good ++ bad :: rest) =
      (merge_with_claude env sorted_results,
        ⟨(good.map (fun r => r.patch)).filter (fun p => !p.isEmpty),
          some sorted_results⟩) := by
  intro good
  induction good with
  | nil =>
    intro bad rest _ hbp hbf
    simp [seq_apply, hbp, hbf]
  | cons r grest ih =>
    intro bad rest h hbp hbf
    have hrec := ih bad rest
      (fun x hx hne => h x (List.mem_cons_of_mem r hx) hne) hbp hbf
    by_cases hp : r.patch = []
    · simp [seq_apply, hp, hrec]
    · have happ := h r (List.mem_cons_self r grest) hp
      simp [seq_apply, hp, happ, hrec]

/-- C7 (claim): under the `sequential` merge strategy the successful results
are sorted by cluster `start_line` ascending (a stable sort: a permutation
of the inputs that is pairwise ordered), their non-empty patches are applied
with `git apply --3way --whitespace=fix` in exactly that order, and: if every
application succeeds the merge reports success without invoking the agent;
on the *first* failed application the engine immediately falls back to
`_merge_with_claude` over the full sorted result set (already-applied and
remaining alike), its verdict becoming the merge's verdict. -/
theorem merge_sequential_spec (cfg : Config) (env : MergeEnv)
    (cluster_results : List WorktreeResult)
    (hstrat : cfg.worktree_merge_strategy = "sequential".toList)
    (hne : cluster_results ≠ []) :
    ∃ sorted_results : List WorktreeResult,
      sorted_results = pySorted wrLe cluster_results ∧
      sorted_results.Perm cluster_results ∧
      sorted_results.Pairwise
        (fun a b => a.cluster.start_line ≤ b.cluster.start_line) ∧
      ((∀ r ∈ sorted_results, r.patch ≠ [] → env.applyPatch r.patch = true) →
        merge_worktree_fixes cfg env cluster_results =
          (true, ⟨(sorted_results.map (fun r => r.patch)).filter
            (fun p => !p.isEmpty), none⟩)) ∧
      (∀ (good : List WorktreeResult) (bad : WorktreeResult)
          (rest : List WorktreeResult),
        sorted_results = good ++ bad :: rest →
        (∀ r ∈ good, r.patch ≠ [] → env.applyPatch r.patch = true) →
        bad.patch ≠ [] → env.applyPatch bad.patch = false →
        merge_worktree_fixes cfg env cluster_results =
          (merge_with_claude env sorted_results,
            ⟨(good.map (fun r => r.patch)).filter (fun p => !p.isEmpty),
              some sorted_results⟩)) := by
  have hstep : merge_worktree_fixes cfg env cluster_results =
      seq_apply env (pySorted wrLe cluster_results)
        (pySorted wrLe cluster_results) := by
    unfold merge_worktree_fixes
    rw [if_neg (by simpa using hne), if_neg (by rw [hstrat]; decide),
      if_pos hstrat]
  refine ⟨pySorted wrLe cluster_results, rfl, pySorted_perm wrLe cluster_results,
    ?_, ?_, ?_⟩
  · have := pySorted_pairwise_of wrLe
      (fun a b hf => by
        simp only [wrLe, decide_eq_false_iff_not, not_le] at hf
        simp only [wrLe, decide_eq_true_eq]
        omega)
      (fun a b c hab hbc => by
        simp only [wrLe, decide_eq_true_eq] at hab hbc ⊢
        omega)
      cluster_results
    refine this.imp ?_
    intro a b hab
    simpa [wrLe] using hab
  · intro hall
    rw [hstep]
    exact seq_apply_all_ok env _ _ hall
  · intro good bad rest hsplit hgood hbp hbf
    rw [hstep, hsplit]
    exact seq_apply_first_fail env _ good bad rest hgood hbp hbf

/-- A sequential-strategy configuration for concrete runs. -/
def seqCfg : Config := { cfgDefault with
  worktree_merge_strategy := "sequential".toList }

/-- A merge environment where every external call succeeds. -/
def seqEnvOk : MergeEnv where
  applyPatch := fun _ => true
  claudeMergeOk := true
  readWorktreeFile := fun _ => some "x".toList
  octopusOk := true

/-- A successful worktree result whose cluster starts at line 9. -/
def wr9 : WorktreeResult :=
  ⟨⟨[⟨"r".toList, [], 9⟩], 9, 9, []⟩, "p9".toList, "w1".toList, "f.py".toList⟩

/-- A successful worktree result whose cluster starts at line 2. -/
def wr2 : WorktreeResult :=
  ⟨⟨[⟨"r".toList, [], 2⟩], 2, 2, []⟩, "p2".toList, "w2".toList, "f.py".toList⟩

/-- Witness for `merge_sequential_spec`: two results arriving out of order
are applied in ascending `start_line` order (`p2` before `p9`) and the merge
succeeds without the agent. -/
theorem merge_sequential_spec_witness :
    merge_worktree_fixes seqCfg seqEnvOk [wr9, wr2] =
      (true, ⟨["p2".toList, "p9".toList], none⟩) := by
  obtain ⟨sorted_results, hs, -, -, hall, -⟩ :=
    merge_sequential_spec seqCfg seqEnvOk [wr9, wr2] (by decide) (by decide)
  rw [hall (fun r _ _ => rfl), hs]
  decide

/-! ## Workspace accounting (`_create_worktree_for_cluster`,
`_cleanup_worktree`, `cleanup_all_worktrees`, the worktree branch of
`_fix_single_file`, and `batch_fix_files`)

The lifecycle is modelled operationally: a state carries
`self._active_worktrees`, the list of all worktree ids ever created, and the
trace of `_cleanup_worktree` calls.  Worker-pool concurrency is modelled as
sequential execution of the submitted cluster attempts (each worktree is
touched only by its own worker and then by the controller). -/

/-- Worktree bookkeeping: `active` is `self._active_worktrees`; `created`
records every id `_create_worktree_for_cluster` returned; `discards` records
every `_cleanup_worktree` call; `next` numbers the worktrees. -/
structure WtState where
  active : List Nat
  created : List Nat
  discards : List Nat
  next : Nat
deriving DecidableEq, Repr

/-- `_create_worktree_for_cluster` on success: a fresh path is appended to
`self._active_worktrees` and returned. -/
def create_worktree (st : WtState) : Nat × WtState :=
  (st.next,
    { st with
      next := st.next + 1
      active := st.active ++ [st.next]
      created := st.created ++ [st.next] })

/-- `_cleanup_worktree`: remove from `_active_worktrees` when present, then
unconditionally run `git worktree remove --force` + `rmtree` (the recorded
discard). -/
def cleanup_worktree (st : WtState) (wid : Nat) : WtState :=
  { st with
    active := st.active.erase wid
    discards := st.discards ++ [wid] }

/-- How one cluster's `fix_cluster_with_worktree` call ends, as far as the
worktree lifecycle is concerned. -/
inductive ClusterOutcome where
  /-- `_create_worktree_for_cluster` returned `None`. -/
  | createFail
  /-- The target file is missing in the worktree: in-function cleanup,
  failure result without a `worktree_path` key. -/
  | fileMissing
  /-- An exception inside the `try:`: the `except` clause cleans up and
  returns a failure result without a `worktree_path` key. -/
  | execExn
  /-- The agent attempt failed (non-zero exit / timeout): no in-function
  cleanup, failure result without a `worktree_path` key. -/
  | agentFail
  /-- Success: no in-function cleanup, result carries `worktree_path`. -/
  | agentOK
deriving DecidableEq, Repr

/-- What `_fix_single_file` sees of one cluster result: `result['success']`
and the `result['worktree_path']` key when present. -/
structure LCResult where
  success : Bool
  wtPathKey : Option Nat
deriving DecidableEq, Repr

/-- Lifecycle skeleton of one `fix_cluster_with_worktree` call. -/
def fix_cluster_lifecycle (o : ClusterOutcome) (st : WtState) :
    LCResult × WtState :=
  match o with
  | .createFail => (⟨false, none⟩, st)
  | .fileMissing =>
    let (wid, st1) := create_worktree st
    (⟨false, none⟩, cleanup_worktree st1 wid)
  | .execExn =>
    let (wid, st1) := create_worktree st
    (⟨false, none⟩, cleanup_worktree st1 wid)
  | .agentFail =>
    let (_, st1) := create_worktree st
    (⟨false, none⟩, st1)
  | .agentOK =>
    let (wid, st1) := create_worktree st
    (⟨true, some wid⟩, st1)

/-- How `_merge_worktree_fixes` ends on the worktree branch. -/
inductive MergeOutcome where
  | mergeOK
  | mergeFail
  /-- The merge call itself raised: the outer `except` of `_fix_single_file`
  catches it, skipping the post-merge cleanup calls. -/
  | mergeRaise
deriving DecidableEq, Repr

/-- The `cleanup_all()` closure of `_fix_single_file`: discard the worktree
of every collected result that has a `worktree_path`. -/
def cleanup_all (results : List LCResult) (st : WtState) : WtState :=
  results.foldl
    (fun s r =>
      match r.wtPathKey with
      | some wid => cleanup_worktree s wid
      | none => s) st

/-- The worktree branch of `_fix_single_file`: run the submitted cluster
attempts, then the merge/cleanup logic of lines 698–740. -/
def fix_single_file_worktrees (cfg : Config) (outcomes : List ClusterOutcome)
    (m : MergeOutcome) (st : WtState) : WtState :=
  let run := outcomes.foldl
    (fun (acc : List LCResult × WtState) o =>
      let (r, s2) := fix_cluster_lifecycle o acc.2
      (acc.1 ++ [r], s2)) ([], st)
  let results := run.1
  let st1 := run.2
  let cluster_results := results.filter (fun r => r.success)
  if cluster_results.isEmpty then
    if cfg.cleanup_worktrees then cleanup_all results st1 else st1
  else
    match m with
    | .mergeRaise => st1
    | .mergeOK =>
      if cfg.cleanup_worktrees then cleanup_all results st1 else st1
    | .mergeFail =>
      let st2 := if cfg.cleanup_worktrees then cleanup_all results st1 else st1
      if cfg.cleanup_worktrees then cleanup_all results st2 else st2

/-- `cleanup_all_worktrees`: discard every still-active worktree, then clear
the list. -/
def cleanup_all_worktrees (st : WtState) : WtState :=
  let st2 := st.active.foldl cleanup_worktree st
  { st2 with active := [] }

/-- `batch_fix_files`: fix each file, with the `finally:` sweep. -/
def batch_fix_files_worktrees (cfg : Config)
    (files : List (List ClusterOutcome × MergeOutcome)) (st : WtState) :
    WtState :=
  let st1 := files.foldl (fun s f => fix_single_file_worktrees cfg f.1 f.2 s) st
  if cfg.cleanup_worktrees then cleanup_all_worktrees st1 else st1

/-- C2 (counterexample): with cleanup enabled (the default), one file whose
single cluster succeeds but whose merge fails: `cleanup_all()` runs twice
(lines 722–723 and 730–732 of `_fix_single_file`), so the one created
worktree is discarded exactly twice, not exactly once. -/
theorem worktree_double_discard_counterexample :
    (batch_fix_files_worktrees cfgDefault [([.agentOK], .mergeFail)]
        ⟨[], [], [], 0⟩).created = [0] ∧
    (batch_fix_files_worktrees cfgDefault [([.agentOK], .mergeFail)]
        ⟨[], [], [], 0⟩).discards = [0, 0] ∧
    (batch_fix_files_worktrees cfgDefault [([.agentOK], .mergeFail)]
        ⟨[], [], [], 0⟩).active = [] := by
  decide

/-- The release invariant: every worktree ever created has either already
been discarded or is still registered in `_active_worktrees` (so the final
sweep can reclaim it). -/
def WtInv (st : WtState) : Prop :=
  ∀ id ∈ st.created, id ∈ st.discards ∨ id ∈ st.active

theorem wtInv_create {st : WtState} (h : WtInv st) :
    WtInv (create_worktree st).2 := by
  intro id hid
  simp only [create_worktree, List.mem_append, List.mem_singleton] at hid ⊢
  rcases hid with hid | hid
  · rcases h id hid with h2 | h2
    · exact Or.inl h2
    · exact Or.inr (Or.inl h2)
  · exact Or.inr (Or.inr hid)

theorem wtInv_cleanup {st : WtState} (h : WtInv st) (wid : Nat) :
    WtInv (cleanup_worktree st wid) := by
  intro id hid
  simp only [cleanup_worktree] at hid ⊢
  rcases h id hid with h2 | h2
  · exact Or.inl (List.mem_append.mpr (Or.inl h2))
  · by_cases heq : id = wid
    · exact Or.inl (List.mem_append.mpr (Or.inr (by simp [heq])))
    · exact Or.inr ((List.mem_erase_of_ne heq).mpr h2)

theorem wtInv_lifecycle {st : WtState} (h : WtInv st) (o : ClusterOutcome) :
    WtInv (fix_cluster_lifecycle o st).2 := by
  cases o
  · exact h
  · exact wtInv_cleanup (wtInv_create h) _
  · exact wtInv_cleanup (wtInv_create h) _
  · exact wtInv_create h
  · exact wtInv_create h

theorem wtInv_cleanup_all {st : WtState} (h : WtInv st)
    (results : List LCResult) : WtInv (cleanup_all results st) := by
  induction results generalizing st with
  | nil => exact h
  | cons r rest ih =>
    cases hk : r.wtPathKey with
    | none => exact ih (by simpa [cleanup_all, hk] using h)
    | some wid =>
      have h3 : WtInv (cleanup_worktree st wid) := wtInv_cleanup h wid
      have := ih h3
      simpa [cleanup_all, hk] using this

theorem wtInv_cluster_fold (outcomes : List ClusterOutcome) :
    ∀ (acc : List LCResult × WtState), WtInv acc.2 →
    WtInv (outcomes.foldl
      (fun (acc : List LCResult × WtState) o =>
        let (r, s2) := fix_cluster_lifecycle o acc.2
        (acc.1 ++ [r], s2)) acc).2 := by
  induction outcomes with
  | nil => intro acc h; exact h
  | cons o rest ih =>
    intro acc h
    exact ih _ (wtInv_lifecycle h o)

theorem wtInv_single_file (cfg : Config) (outcomes : List ClusterOutcome)
    (m : MergeOutcome) {st : WtState} (h : WtInv st) :
    WtInv (fix_single_file_worktrees cfg outcomes m st) := by
  unfold fix_single_file_worktrees
  have h1 := wtInv_cluster_fold outcomes ([], st) h
  set run := outcomes.foldl
    (fun (acc : List LCResult × WtState) o =>
      let (r, s2) := fix_cluster_lifecycle o acc.2
      (acc.1 ++ [r], s2)) (([] : List LCResult), st) with hrun
  simp only
  split
  · split
    · exact wtInv_cleanup_all h1 _
    · exact h1
  · split
    · exact h1
    · split
      · exact wtInv_cleanup_all h1 _
      · exact h1
    · split
      · exact wtInv_cleanup_all (wtInv_cleanup_all h1 _) _
      · exact h1

theorem foldl_cleanup_spec :
    ∀ (l : List Nat) (st : WtState),
    (l.foldl cleanup_worktree st).discards = st.discards ++ l ∧
    (l.foldl cleanup_worktree st).created = st.created := by
  intro l
  induction l with
  | nil => intro st; simp
  | cons wid rest ih =>
    intro st
    simp only [List.foldl_cons]
    rcases ih (cleanup_worktree st wid) with ⟨h1, h2⟩
    refine ⟨?_, by simpa [cleanup_worktree] using h2⟩
    rw [h1]
    simp [cleanup_worktree]

/-- C2 (amended): with `cleanup_worktrees` enabled (the default), by the end
of `batch_fix_files` the set of active worktrees is empty and every worktree
that was ever created has been discarded *at least* once — but not always
exactly once: on the merge-failure path the worktrees of successful clusters
are discarded twice (see the counterexample; `_cleanup_worktree` tolerates
the repeat). -/
theorem batch_fix_files_worktree_accounting (cfg : Config)
    (hclean : cfg.cleanup_worktrees = true)
    (files : List (List ClusterOutcome × MergeOutcome)) :
    (batch_fix_files_worktrees cfg files ⟨[], [], [], 0⟩).active = [] ∧
    ∀ id ∈ (batch_fix_files_worktrees cfg files ⟨[], [], [], 0⟩).created,
      id ∈ (batch_fix_files_worktrees cfg files ⟨[], [], [], 0⟩).discards := by
  have hfold : WtInv (files.foldl
      (fun s f => fix_single_file_worktrees cfg f.1 f.2 s) ⟨[], [], [], 0⟩) := by
    have : WtInv ⟨[], [], [], 0⟩ := by intro id hid; cases hid
    generalize (⟨[], [], [], 0⟩ : WtState) = st0 at this ⊢
    induction files generalizing st0 with
    | nil => exact this
    | cons f rest ih =>
      exact ih _ (wtInv_single_file cfg f.1 f.2 this)
  unfold batch_fix_files_worktrees
  rw [if_pos hclean]
  set st1 := files.foldl (fun s f => fix_single_file_worktrees cfg f.1 f.2 s)
    ⟨[], [], [], 0⟩ with hst1
  obtain ⟨hd, hc⟩ := foldl_cleanup_spec st1.active st1
  constructor
  · simp [cleanup_all_worktrees]
  · intro id hid
    simp only [cleanup_all_worktrees] at hid ⊢
    rw [hc] at hid
    rw [hd]
    rcases hfold id hid with h2 | h2
    · exact List.mem_append.mpr (Or.inl h2)
    · exact List.mem_append.mpr (Or.inr h2)

/-- Witness for `batch_fix_files_worktree_accounting`: a batch with two files
exercising every outcome reclaims all four worktrees it created. -/
theorem batch_fix_files_worktree_accounting_witness :
    cfgDefault.cleanup_worktrees = true ∧
    ((batch_fix_files_worktrees cfgDefault
        [([.agentOK, .createFail, .agentFail], .mergeOK),
         ([.execExn, .fileMissing, .agentOK], .mergeRaise)]
        ⟨[], [], [], 0⟩).active = [] ∧
      ∀ id ∈ (batch_fix_files_worktrees cfgDefault
        [([.agentOK, .createFail, .agentFail], .mergeOK),
         ([.execExn, .fileMissing, .agentOK], .mergeRaise)]
        ⟨[], [], [], 0⟩).created,
        id ∈ (batch_fix_files_worktrees cfgDefault
        [([.agentOK, .createFail, .agentFail], .mergeOK),
         ([.execExn, .fileMissing, .agentOK], .mergeRaise)]
        ⟨[], [], [], 0⟩).discards) :=
  ⟨rfl, batch_fix_files_worktree_accounting cfgDefault rfl
    [([.agentOK, .createFail, .agentFail], .mergeOK),
     ([.execExn, .fileMissing, .agentOK], .mergeRaise)]⟩

/-! ## Auto-fix atomicity (`auto_fix.py`: `create_backup`, `run_auto_fix`)

`run_auto_fix` is modelled as a function of an environment giving the
outcome of each filesystem/subprocess step, returning the result dictionary
and the final on-disk content of the target file. -/

/-- Outcome of the `subprocess.run(fix_cmd + [file_path], ...)` call. -/
inductive AutoFixCmd where
  /-- Completed (any exit code; the source stores but never checks it). -/
  | completes (returncode : Int)
  /-- `subprocess.TimeoutExpired` after 30 seconds. -/
  | timesOut
  /-- Another exception (e.g. the command binary is missing). -/
  | raisesE (msg : Str)
deriving DecidableEq, Repr

/-- Environment of one `run_auto_fix` call. -/
structure AutoFixEnv where
  /-- On-disk content of the target file before the call. -/
  fileContent : Str
  /-- `create_backup` succeeded (it returns `None` on any failure, and the
  backup file then holds a copy of `fileContent`). -/
  backupOk : Bool
  /-- The first `open(file_path).read()` succeeds. -/
  readOrigOk : Bool
  /-- The fix subprocess outcome. -/
  cmd : AutoFixCmd
  /-- On-disk content of the target after the subprocess (however far the
  fixer got before completing, timing out, or raising). -/
  contentAfterCmd : Str
  /-- The second `open(file_path).read()` succeeds. -/
  readFixedOk : Bool
deriving DecidableEq, Repr

/-- The subset of the `run_auto_fix` result dictionary the claims are
about. -/
structure AutoFixResult where
  fixed : Bool
  message : Str
  error : Option Str
deriving DecidableEq, Repr

/-- `run_auto_fix`: returns the result dictionary and the final on-disk
content.  The `except` clauses restore from the backup when it exists. -/
def run_auto_fix (env : AutoFixEnv) : AutoFixResult × Str :=
  let backup : Option Str := if env.backupOk then some env.fileContent else none
  let restore : Str → Str := fun current =>
    match backup with
    | some b => b
    | none => current
  if env.readOrigOk = false then
    (⟨false, "Auto-fix failed".toList, some "read error".toList⟩,
      restore env.fileContent)
  else
    match env.cmd with
    | .timesOut =>
      (⟨false, "Auto-fix timed out".toList,
        some "Timeout after 30 seconds".toList⟩,
        restore env.contentAfterCmd)
    | .raisesE msg =>
      (⟨false, "Auto-fix failed".toList, some msg⟩, restore env.contentAfterCmd)
    | .completes _ =>
      if env.readFixedOk = false then
        (⟨false, "Auto-fix failed".toList, some "read error".toList⟩,
          restore env.contentAfterCmd)
      else if env.fileContent = env.contentAfterCmd then
        (⟨false, "No fixes applied".toList, none⟩, env.contentAfterCmd)
      else
        (⟨true, "Auto-fixed".toList, none⟩, env.contentAfterCmd)

/-- C10 (claim): `run_auto_fix` is atomic on failure — whenever the backup
was successfully created and the fix subprocess times out or any exception
is raised (reading the original, running the command, or reading the result),
the target file ends with exactly its pre-fix content restored from the
backup, and the returned result has `fixed = false` with an error message. -/
theorem run_auto_fix_atomic (env : AutoFixEnv) (hb : env.backupOk = true)
    (hfail : env.cmd = .timesOut ∨ (∃ m, env.cmd = .raisesE m) ∨
      env.readOrigOk = false ∨ env.readFixedOk = false) :
    (run_auto_fix env).2 = env.fileContent ∧
    (run_auto_fix env).1.fixed = false ∧
    (run_auto_fix env).1.error ≠ none := by
  obtain ⟨fc, bk, ro, cmd, ca, rf⟩ := env
  simp only at hb hfail
  subst hb
  cases ro
  · cases cmd <;> simp [run_auto_fix]
  · rcases hfail with h1 | ⟨m, h1⟩ | h1 | h1
    · subst h1; simp [run_auto_fix]
    · subst h1; simp [run_auto_fix]
    · cases h1
    · subst h1
      cases cmd <;> simp [run_auto_fix]

/-- Witness for `run_auto_fix_atomic`: a timed-out fixer that had half-way
mangled the file leaves the original content on disk and reports failure. -/
theorem run_auto_fix_atomic_witness :
    (run_auto_fix
        { fileContent := "x = 1\n".toList
          backupOk := true
          readOrigOk := true
          cmd := .timesOut
          contentAfterCmd := "x =".toList
          readFixedOk := true }).2 = "x = 1\n".toList ∧
    (run_auto_fix
        { fileContent := "x = 1\n".toList
          backupOk := true
          readOrigOk := true
          cmd := .timesOut
          contentAfterCmd := "x =".toList
          readFixedOk := true }).1.fixed = false ∧
    (run_auto_fix
        { fileContent := "x = 1\n".toList
          backupOk := true
          readOrigOk := true
          cmd := .timesOut
          contentAfterCmd := "x =".toList
          readFixedOk := true }).1.error ≠ none :=
  run_auto_fix_atomic
    { fileContent := "x = 1\n".toList
      backupOk := true
      readOrigOk := true
      cmd := .timesOut
      contentAfterCmd := "x =".toList
      readFixedOk := true }
    rfl (Or.inl rfl)

end QualityHook
